import Mathlib

/-!
# Shell process-orchestration core (`src/shell.c`)

A shallow embedding of `redirection`, `spawn_proc`, `fork_cmd_node` and one
pass through the loop of `shell`, with the claims of the specification about
them.

The code is run by one process at a time, whose state is `Proc`: its
descriptor table, counters of the `pipe`, `fork` and `wait` calls made, and the
trace of the calls it issued. Descriptors are C `int`s (`Int`); the table is
indexed by naturals. The operating system follows POSIX: `open`, `dup` and
`pipe` return the lowest-numbered free descriptors, `dup2` from a descriptor
that is not open fails and leaves the target alone, `close` of a descriptor
that is not open fails. What the code cannot decide is fixed by a `World`:
whether a `pipe` or `open` call succeeds, what `fork` and `wait` return,
whether `execvp` succeeds, and the built-in registry of `builtin.h`. A run in
which `fork` returns `0` is the run of the child process, so one function
describes both sides of a `fork`.

`printf`, `read_line`, `split_line` and the `free` calls are not modelled: a
pipeline is the list of its stages in order.
-/

namespace Shell

/-! ## The data model and the system calls -/

/-- An open file description, the thing a descriptor refers to. -/
inductive OFile where
  /-- A description the process already held (terminal, file, socket ...). -/
  | inherited (k : Nat)
  /-- Read end of the `k`-th pipe created. -/
  | pipeRd (k : Nat)
  /-- Write end of the `k`-th pipe created. -/
  | pipeWr (k : Nat)
  /-- A file opened by `open(path, flags, mode)`. -/
  | file (path : String) (flags mode : Nat)
  deriving DecidableEq, Repr

/-- A descriptor table: slot `fd` holds what descriptor `fd` refers to. -/
abbrev FdTable := List (Option OFile)

/-- What descriptor `fd` refers to (`none`: closed). -/
def fdget : FdTable → Nat → Option OFile
  | [], _ => none
  | x :: _, 0 => x
  | _ :: t, n + 1 => fdget t n

/-- Make descriptor `fd` refer to `v`. -/
def fdset : FdTable → Nat → Option OFile → FdTable
  | [], 0, v => [v]
  | [], n + 1, v => none :: fdset [] n v
  | _ :: t, 0, v => v :: t
  | x :: t, n + 1, v => x :: fdset t n v

/-- The lowest-numbered descriptor that is not open. -/
def lowestFree : FdTable → Nat
  | [] => 0
  | none :: _ => 0
  | some _ :: t => lowestFree t + 1

/-- Descriptor `fd` (a C `int`) is open in table `t`. -/
def isOpen (t : FdTable) (fd : Int) : Bool :=
  decide (0 ≤ fd) && (fdget t fd.toNat).isSome

/-- `struct cmd_node`: one pipeline stage (`in_` is the field `in`). -/
structure cmd_node where
  args : List String
  in_file : Option String
  out_file : Option String
  in_ : Int
  out : Int
  deriving DecidableEq, Repr

/-- System calls and library calls issued by the process, as observed. -/
inductive Event where
  | pipe (ret rd wr : Int)
  /-- `fork()` returned `pid`; `stage` is the stage being started and `fds`
  the descriptor table at that moment (the table the child inherits). -/
  | fork (pid : Int) (stage : cmd_node) (fds : FdTable)
  | close (fd ret : Int)
  | dup (fd ret : Int)
  | dup2 (oldfd newfd ret : Int)
  | open_ (path : String) (flags mode : Nat) (ret : Int)
  | wait (ret : Int)
  | waitpid (pid : Int)
  | perror (msg : String)
  | execvp (args : List String)
  | builtin (idx : Int) (ret : Int)
  deriving DecidableEq, Repr

/-- The state of the running process. -/
structure Proc where
  /-- Descriptor table. -/
  fds : FdTable
  /-- Number of `pipe` calls made so far. -/
  npipe : Nat
  /-- Number of `fork` calls made so far. -/
  nfork : Nat
  /-- Number of `wait` calls made so far. -/
  nwait : Nat
  /-- Calls issued so far, oldest first. -/
  trace : List Event
  deriving DecidableEq, Repr

/-- Everything the code cannot decide by itself. -/
structure World where
  /-- Does the `k`-th `pipe` call succeed. -/
  pipeOk : Nat → Bool
  /-- Return value of the `k`-th `fork` call (`< 0` failure, `0` in the
  child, `> 0` in the parent). -/
  forkRet : Nat → Int
  /-- Return value of the `k`-th `wait` call and the status it stores. -/
  waitRet : Nat → Int × Int
  /-- Can `path` be opened with `flags`. -/
  openOk : String → Nat → Bool
  /-- Does `execvp` of this argument vector succeed. -/
  execOk : List String → Bool
  /-- The built-in registry lookup of `builtin.h` (index or `-1`). -/
  searchBuiltInCommand : cmd_node → Int
  /-- The built-in dispatcher of `builtin.h`: status and the descriptor
  table the built-in leaves behind. -/
  execBuiltInCommand : Int → cmd_node → FdTable → Int × FdTable

def STDIN_FILENO : Int := 0
def STDOUT_FILENO : Int := 1
/-- Open flag `O_RDONLY` of `fcntl.h`. -/
def O_RDONLY : Nat := 0
/-- Open flags `O_WRONLY | O_CREAT | O_TRUNC` of `fcntl.h` (octal 01 | 0100 | 01000). -/
def O_WRONLY_CREAT_TRUNC : Nat := 577
/-- Octal `0644`. -/
def MODE_0644 : Nat := 420

/-- Record an event. -/
def Proc.log (s : Proc) (e : Event) : Proc := { s with trace := s.trace ++ [e] }

/-- The call `perror(msg)`. -/
def perror (msg : String) (s : Proc) : Proc := s.log (.perror msg)

/-- The call `close(fd)`: `0`, or `-1` when `fd` is not an open descriptor. -/
def sys_close (fd : Int) (s : Proc) : Int × Proc :=
  if isOpen s.fds fd then
    (0, { s with fds := fdset s.fds fd.toNat none, trace := s.trace ++ [.close fd 0] })
  else (-1, s.log (.close fd (-1)))

/-- The call `dup2(oldfd, newfd)`: `newfd`, or `-1` when `oldfd` is not open or
`newfd` is negative (then nothing changes, `newfd` is not closed). -/
def sys_dup2 (oldfd newfd : Int) (s : Proc) : Int × Proc :=
  if isOpen s.fds oldfd && decide (0 ≤ newfd) then
    (newfd, { s with fds := fdset s.fds newfd.toNat (fdget s.fds oldfd.toNat),
                     trace := s.trace ++ [.dup2 oldfd newfd newfd] })
  else (-1, s.log (.dup2 oldfd newfd (-1)))

/-- The call `dup(fd)`: the lowest free descriptor, now a copy of `fd`, or `-1`. -/
def sys_dup (fd : Int) (s : Proc) : Int × Proc :=
  if isOpen s.fds fd then
    let n := lowestFree s.fds
    ((n : Int), { s with fds := fdset s.fds n (fdget s.fds fd.toNat),
                         trace := s.trace ++ [.dup fd n] })
  else (-1, s.log (.dup fd (-1)))

/-- The call `open(path, flags, mode)`: the lowest free descriptor, or `-1`. -/
def sys_open (w : World) (path : String) (flags mode : Nat) (s : Proc) : Int × Proc :=
  if w.openOk path flags then
    let n := lowestFree s.fds
    ((n : Int), { s with fds := fdset s.fds n (some (.file path flags mode)),
                         trace := s.trace ++ [.open_ path flags mode n] })
  else (-1, s.log (.open_ path flags mode (-1)))

/-- The call `pipe(pipefd)`: on success the two lowest free descriptors become
the read end and the write end of a new pipe; returns `(ret, pipefd[0], pipefd[1])`. -/
def sys_pipe (w : World) (s : Proc) : (Int × Int × Int) × Proc :=
  if w.pipeOk s.npipe then
    let r := lowestFree s.fds
    let t1 := fdset s.fds r (some (.pipeRd s.npipe))
    let wr := lowestFree t1
    let t2 := fdset t1 wr (some (.pipeWr s.npipe))
    ((0, (r : Int), (wr : Int)),
      { s with fds := t2, npipe := s.npipe + 1, trace := s.trace ++ [.pipe 0 r wr] })
  else ((-1, 0, 0), { s with npipe := s.npipe + 1, trace := s.trace ++ [.pipe (-1) 0 0] })

/-- The call `fork()` made while starting `stage`. -/
def sys_fork (w : World) (stage : cmd_node) (s : Proc) : Int × Proc :=
  (w.forkRet s.nfork,
    { s with nfork := s.nfork + 1, trace := s.trace ++ [.fork (w.forkRet s.nfork) stage s.fds] })

/-- The call `wait(&status)`: return value and the status stored. -/
def sys_wait (w : World) (s : Proc) : (Int × Int) × Proc :=
  (w.waitRet s.nwait,
    { s with nwait := s.nwait + 1, trace := s.trace ++ [.wait (w.waitRet s.nwait).1] })

/-- The call `waitpid(pid, NULL, 0)`; its return value is ignored by the code. -/
def sys_waitpid (pid : Int) (s : Proc) : Proc := s.log (.waitpid pid)

/-- The call `execvp(args[0], args)`: `none` when the process image was
replaced (the call does not return), `some (-1)` when it failed. -/
def sys_execvp (w : World) (args : List String) (s : Proc) : Option Int × Proc :=
  (if w.execOk args then none else some (-1), s.log (.execvp args))

/-- The call `execBuiltInCommand(idx, p)`. -/
def execBuiltInCommand (w : World) (idx : Int) (p : cmd_node) (s : Proc) : Int × Proc :=
  ((w.execBuiltInCommand idx p s.fds).1,
    { s with fds := (w.execBuiltInCommand idx p s.fds).2,
             trace := s.trace ++ [.builtin idx (w.execBuiltInCommand idx p s.fds).1] })

/-- `void redirection(struct cmd_node *p)`. -/
def redirection (w : World) (p : cmd_node) (s : Proc) : Proc :=
  -- pipe
  let s :=
    if p.in_ ≠ STDIN_FILENO then
      let r := sys_dup2 p.in_ STDIN_FILENO s
      if r.1 = -1 then perror "dup2 in" r.2 else r.2
    else s
  let s :=
    if p.out ≠ STDOUT_FILENO then
      let r := sys_dup2 p.out STDOUT_FILENO s
      if r.1 = -1 then perror "dup2 out" r.2 else r.2
    else s
  -- <
  let s :=
    match p.in_file with
    | some path =>
      let o := sys_open w path O_RDONLY 0 s
      let fd_in := o.1
      let s := if fd_in < 0 then perror "open in_file" o.2 else o.2
      let r := sys_dup2 fd_in STDIN_FILENO s
      let s := if r.1 = -1 then perror "dup2 in_file" r.2 else r.2
      (sys_close fd_in s).2
    | none => s
  -- >
  match p.out_file with
  | some path =>
    let o := sys_open w path O_WRONLY_CREAT_TRUNC MODE_0644 s
    let fd_out := o.1
    let s := if fd_out < 0 then perror "open out_file" o.2 else o.2
    let r := sys_dup2 fd_out STDOUT_FILENO s
    let s := if r.1 = -1 then perror "dup2 out_file" r.2 else r.2
    (sys_close fd_out s).2
  | none => s

/-- How the C function ends for the process that runs it. -/
inductive Outcome where
  /-- It returned `v` to its caller. -/
  | ret (v : Int)
  /-- The process called `_exit(code)`. -/
  | exited (code : Int)
  /-- The process image was replaced by `execvp`. -/
  | execed (args : List String)
  deriving DecidableEq, Repr

/-- `int spawn_proc(struct cmd_node *p)`. -/
def spawn_proc (w : World) (p : cmd_node) (s : Proc) : Outcome × Proc :=
  let f := sys_fork w p s
  let pid := f.1
  if pid < 0 then
    (.ret (-1), perror "fork" f.2)
  else if pid = 0 then
    let s := redirection w p f.2
    match sys_execvp w p.args s with
    | (none, s) => (.execed p.args, s)
    | (some r, s) =>
      if r = -1 then (.exited 1, perror "execvp" s)
      else (.ret 1, s)
  else
    (.ret 1, sys_waitpid pid f.2)

/-- The child branch of `fork_cmd_node` (lines 134-149), run by the process
in which `fork` returned `0`. -/
def pipeline_child (w : World) (node : cmd_node) (s : Proc) : Outcome × Proc :=
  let s := redirection w node s
  let idx := w.searchBuiltInCommand node
  if idx ≠ -1 then
    (.exited 0, (execBuiltInCommand w idx node s).2)
  else
    match sys_execvp w node.args s with
    | (none, s) => (.execed node.args, s)
    | (some r, s) =>
      if r = -1 then (.exited 1, perror "execvp" s)
      else (.exited 0, s)

/-- The `for` loop of `fork_cmd_node` (lines 110-168), entered at the head of
the remaining stage list.  Result: `some o` when the function ended inside
the loop with outcome `o`, `none` when the loop ran to its end; then the
value of `child_cnt` and the process state. -/
def stage_loop (w : World) :
    List cmd_node → Int → Int × Int → Nat → Proc → Option Outcome × Nat × Proc
  | [], _, _, child_cnt, s => (none, child_cnt, s)
  | node :: rest, prev_read, pipefd, child_cnt, s =>
    let hasNext : Bool := !rest.isEmpty
    -- 1. decide this node's in / out
    let pr := if hasNext then sys_pipe w s else ((0, pipefd), s)
    if hasNext && decide (pr.1.1 = -1) then
      (some (.ret (-1)), child_cnt, perror "pipe" pr.2)
    else
      let pipefd := pr.1.2
      let node : cmd_node :=
        if hasNext then { node with in_ := prev_read, out := pipefd.2 }
        else { node with in_ := prev_read, out := STDOUT_FILENO }
      -- 2. fork child
      let f := sys_fork w node pr.2
      let pid := f.1
      if pid < 0 then
        (some (.ret (-1)), child_cnt, perror "fork" f.2)
      else if pid = 0 then
        ((some (pipeline_child w node f.2).1), child_cnt, (pipeline_child w node f.2).2)
      else
        -- parent
        let child_cnt := child_cnt + 1
        let s := if node.out ≠ STDOUT_FILENO then (sys_close node.out f.2).2 else f.2
        let s := if prev_read ≠ STDIN_FILENO then (sys_close prev_read s).2 else s
        let prev_read := if hasNext then pipefd.1 else prev_read
        stage_loop w rest prev_read pipefd child_cnt s

/-- The wait loop of `fork_cmd_node` (lines 171-176) with `n` rounds left;
carries the variable `status`. -/
def wait_loop (w : World) : Nat → Int → Proc → Option Outcome × Int × Proc
  | 0, status, s => (none, status, s)
  | n + 1, status, s =>
    let r := sys_wait w s
    if r.1.1 = -1 then (some (.ret (-1)), status, perror "wait" r.2)
    else wait_loop w n r.1.2 r.2

/-- The macro `WIFEXITED(status)` of `sys/wait.h`: `(status & 0x7f) == 0`. -/
def WIFEXITED (status : Int) : Bool := decide (status % 128 = 0)

/-- `int fork_cmd_node(struct cmd *cmd)`; `cmd` is the stage list from `cmd->head`. -/
def fork_cmd_node (w : World) (cmd : List cmd_node) (s : Proc) : Outcome × Proc :=
  match stage_loop w cmd STDIN_FILENO (0, 0) 0 s with
  | (some o, _, s) => (o, s)
  | (none, child_cnt, s) =>
    match wait_loop w child_cnt 0 s with
    | (some o, _, s) => (o, s)
    | (none, status, s) =>
      if WIFEXITED status then (.ret 1, s) else (.ret (-1), s)

/-- The built-in branch of `shell` (lines 204-214): returns the new `status`. -/
def run_builtin (w : World) (status : Int) (temp : cmd_node) (s : Proc) : Int × Proc :=
  let i := sys_dup STDIN_FILENO s
  let o := sys_dup STDOUT_FILENO i.2
  let s := if i.1 = -1 ∨ o.1 = -1 then perror "dup" o.2 else o.2
  let s := redirection w temp s
  let b := execBuiltInCommand w status temp s
  -- recover shell stdin and stdout
  let s := if temp.in_file.isSome then (sys_dup2 i.1 0 b.2).2 else b.2
  let s := if temp.out_file.isSome then (sys_dup2 o.1 1 s).2 else s
  let s := (sys_close i.1 s).2
  let s := (sys_close o.1 s).2
  (b.1, s)

/-- How one pass through the body of `while (1)` in `shell` ends. -/
inductive Iter where
  /-- The loop goes on with the next prompt. -/
  | again
  /-- The `break` was taken. -/
  | leave
  /-- The process is a child that exited or replaced its image. -/
  | gone (o : Outcome)
  deriving DecidableEq, Repr

/-- One pass through the body of `while (1)` in `shell` (lines 190-237).
`line` is `none` when `read_line` returned `NULL`, otherwise the pipeline
`split_line` built: its head stage and the stages after it. -/
def shell_iteration (w : World) (line : Option (cmd_node × List cmd_node)) (s : Proc) :
    Iter × Proc :=
  match line with
  | none => (.again, s)
  | some (temp, rest) =>
    let r : Outcome × Proc :=
      if rest.isEmpty then
        let status := w.searchBuiltInCommand temp
        if status ≠ -1 then
          let b := run_builtin w status temp s
          (.ret b.1, b.2)
        else
          spawn_proc w temp s
      else
        fork_cmd_node w (temp :: rest) s
    match r with
    | (.ret status, s) => if status = 0 then (.leave, s) else (.again, s)
    | (o, s) => (.gone o, s)

/-! ## Views of the trace, the table and the code, used to state and prove the claims -/

/-- The `fork` calls of a trace: return value, stage started, table inherited. -/
def forkEvents : List Event → List (Int × cmd_node × FdTable)
  | [] => []
  | .fork pid stage fds :: es => (pid, stage, fds) :: forkEvents es
  | _ :: es => forkEvents es

/-- The `pipe` calls of a trace: return value, read end, write end. -/
def pipeEvents : List Event → List (Int × Int × Int)
  | [] => []
  | .pipe ret rd wr :: es => (ret, rd, wr) :: pipeEvents es
  | _ :: es => pipeEvents es

/-- The number of `wait` calls of a trace. -/
def waitCount : List Event → Nat
  | [] => 0
  | .wait _ :: es => waitCount es + 1
  | _ :: es => waitCount es

/-- The descriptors on which `close` was called, in order. -/
def closeCalls : List Event → List Int
  | [] => []
  | .close fd _ :: es => fd :: closeCalls es
  | _ :: es => closeCalls es

/-- Two descriptor tables are the same table: every descriptor refers to the
same open file description (or is closed) in both. -/
def sameTable (a b : FdTable) : Prop := ∀ fd : Nat, fdget a fd = fdget b fd

/-- Table `t` holds the read end of pipe `k` on some descriptor. -/
def holdsRd (t : FdTable) (k : Nat) : Prop := ∃ fd : Nat, fdget t fd = some (.pipeRd k)

/-- Table `t` holds the write end of pipe `k` on some descriptor. -/
def holdsWr (t : FdTable) (k : Nat) : Prop := ∃ fd : Nat, fdget t fd = some (.pipeWr k)

/-- Events other than `pipe`, `fork`, `wait`, `execvp` and a built-in run. -/
def Event.quiet : Event → Bool
  | .pipe _ _ _ => false
  | .fork _ _ _ => false
  | .wait _ => false
  | .execvp _ => false
  | .builtin _ _ => false
  | _ => true

/-- From `s` to `s'` the process only appended quiet events. -/
def QuietExt (s s' : Proc) : Prop :=
  s'.npipe = s.npipe ∧ s'.nfork = s.nfork ∧ s'.nwait = s.nwait ∧
    ∃ evs, s'.trace = s.trace ++ evs ∧ ∀ e ∈ evs, Event.quiet e = true

/-- From `s` to `s'` the process appended events and made no `fork` call. -/
def NoForkExt (s s' : Proc) : Prop :=
  s'.nfork = s.nfork ∧ ∃ evs, s'.trace = s.trace ++ evs ∧ forkEvents evs = []

/-- Step 1 of a pass: the `pipe` call, made only when a stage follows. -/
def stagePipe (w : World) (rest : List cmd_node) (pipefd : Int × Int) (s : Proc) :
    (Int × Int × Int) × Proc :=
  if !rest.isEmpty then sys_pipe w s else ((0, pipefd), s)

/-- The stage with `in` and `out` assigned as in step 1. -/
def stageWired (node : cmd_node) (rest : List cmd_node) (prev_read : Int) (pipefd : Int × Int) :
    cmd_node :=
  if !rest.isEmpty then { node with in_ := prev_read, out := pipefd.2 }
  else { node with in_ := prev_read, out := STDOUT_FILENO }

/-- The two guarded `close` calls of the parent after a `fork`. -/
def stageParent (node : cmd_node) (prev_read : Int) (s : Proc) : Proc :=
  let s := if node.out ≠ STDOUT_FILENO then (sys_close node.out s).2 else s
  if prev_read ≠ STDIN_FILENO then (sys_close prev_read s).2 else s

/-- The state in which the built-in branch of `shell` calls the dispatcher:
after the two `dup` calls and `redirection`. -/
def builtin_entry (w : World) (temp : cmd_node) (s : Proc) : Proc :=
  redirection w temp
    (if (sys_dup STDIN_FILENO s).1 = -1 ∨ (sys_dup STDOUT_FILENO (sys_dup STDIN_FILENO s).2).1 = -1
     then perror "dup" (sys_dup STDOUT_FILENO (sys_dup STDIN_FILENO s).2).2
     else (sys_dup STDOUT_FILENO (sys_dup STDIN_FILENO s).2).2)

/-- The pipe part of `redirection` (lines 24-33). -/
def redirPipes (p : cmd_node) (s : Proc) : Proc :=
  let s :=
    if p.in_ ≠ STDIN_FILENO then
      let r := sys_dup2 p.in_ STDIN_FILENO s
      if r.1 = -1 then perror "dup2 in" r.2 else r.2
    else s
  if p.out ≠ STDOUT_FILENO then
    let r := sys_dup2 p.out STDOUT_FILENO s
    if r.1 = -1 then perror "dup2 out" r.2 else r.2
  else s

/-- One file part of `redirection` (lines 37-43 and 47-53): open, report,
duplicate onto `tgt`, report, close. -/
def redirFile (w : World) (path : String) (flags mode : Nat) (msg1 msg2 : String) (tgt : Int)
    (s : Proc) : Proc :=
  let o := sys_open w path flags mode s
  let fd := o.1
  let s := if fd < 0 then perror msg1 o.2 else o.2
  let r := sys_dup2 fd tgt s
  let s := if r.1 = -1 then perror msg2 r.2 else r.2
  (sys_close fd s).2

/-- What a part of `redirection` may do to a process whose descriptors 0 and
1 are open: only descriptors 0 and 1 can change and both stay open, and the
part duplicates from and closes only descriptors that were not open before it. -/
def Redirects (s r : Proc) : Prop :=
  (∀ fd, 2 ≤ fd → fdget r.fds fd = fdget s.fds fd) ∧
  fdget r.fds 0 ≠ none ∧ fdget r.fds 1 ≠ none ∧
  ∃ qe, r.trace = s.trace ++ qe ∧ (∀ e ∈ qe, Event.quiet e = true) ∧
    (∀ o n x, Event.dup2 o n x ∈ qe → isOpen s.fds o = false) ∧
    (∀ fd x, Event.close fd x ∈ qe → isOpen s.fds fd = false)

/-- The process state right after a successful `pipe` call. -/
def afterPipe (s : Proc) : Proc :=
  { s with
    fds := fdset (fdset s.fds (lowestFree s.fds) (some (.pipeRd s.npipe)))
      (lowestFree (fdset s.fds (lowestFree s.fds) (some (.pipeRd s.npipe))))
      (some (.pipeWr s.npipe))
    npipe := s.npipe + 1
    trace := s.trace ++ [.pipe 0 (lowestFree s.fds)
      (lowestFree (fdset s.fds (lowestFree s.fds) (some (.pipeRd s.npipe))))] }

/-- The read descriptor a successful `pipe` call returns in state `s`. -/
def pipeRdFd (s : Proc) : Nat := lowestFree s.fds

/-- The write descriptor a successful `pipe` call returns in state `s`. -/
def pipeWrFd (s : Proc) : Nat :=
  lowestFree (fdset s.fds (lowestFree s.fds) (some (.pipeRd s.npipe)))

/-! ## Concrete inputs -/

/-- A terminal the shell was started on. -/
def tty : Option OFile := some (.inherited 0)

/-- A process with descriptors 0, 1, 2 on the terminal and nothing else. -/
def proc0 : Proc := { fds := [tty, tty, tty], npipe := 0, nfork := 0, nwait := 0, trace := [] }

/-- A stage with the given arguments and default bindings. -/
def stageOf (args : List String) : cmd_node :=
  { args := args, in_file := none, out_file := none, in_ := 0, out := 1 }

/-- A world seen by the parent: every call succeeds, no command is a built-in. -/
def worldParent : World :=
  { pipeOk := fun _ => true
    forkRet := fun k => 100 + (k : Int)
    waitRet := fun k => (100 + (k : Int), 0)
    openOk := fun _ _ => true
    execOk := fun _ => true
    searchBuiltInCommand := fun _ => -1
    execBuiltInCommand := fun _ _ t => (1, t) }

/-- The world seen by the first child of a pipeline whose commands are all
the built-in number 0, which returns status 1. -/
def worldChildBuiltin : World :=
  { worldParent with forkRet := fun _ => 0, searchBuiltInCommand := fun _ => 0 }

/-- A process started with standard input closed: descriptor 0 is free. -/
def procNoStdin : Proc := { fds := [none, tty, tty], npipe := 0, nfork := 0, nwait := 0, trace := [] }

/-- A process started with standard output closed: descriptor 1 is free. -/
def procNoStdout : Proc :=
  { fds := [tty, none, some (.inherited 2)], npipe := 0, nfork := 0, nwait := 0, trace := [] }

/-- The pipeline `ls | sort | wc`. -/
def cmd3 : List cmd_node := [stageOf ["ls"], stageOf ["sort"], stageOf ["wc"]]

/-- A process started with standard input and standard output closed. -/
def procNoStd : Proc :=
  { fds := [none, none, tty], npipe := 0, nfork := 0, nwait := 0, trace := [] }

/-- A world in which every `fork` call fails. -/
def worldForkFails : World := { worldParent with forkRet := fun _ => -1 }

/-- A world in which only the first `pipe` call succeeds. -/
def worldSecondPipeFails : World := { worldParent with pipeOk := fun k => decide (k = 0) }

/-- A world in which no file can be opened. -/
def worldNoOpen : World := { worldParent with openOk := fun _ _ => false }

/-! ## The descriptor table -/

theorem fdget_nil (n : Nat) : fdget [] n = none := by
  cases n <;> rfl

theorem fdget_fdset_self (t : FdTable) (n : Nat) (v : Option OFile) :
    fdget (fdset t n v) n = v := by
  induction n generalizing t with
  | zero => cases t <;> rfl
  | succ n ih =>
    cases t with
    | nil => simpa [fdset, fdget] using ih []
    | cons x t => simpa [fdset, fdget] using ih t

theorem fdget_fdset_of_ne (t : FdTable) (n m : Nat) (v : Option OFile) (h : m ≠ n) :
    fdget (fdset t n v) m = fdget t m := by
  induction n generalizing t m with
  | zero =>
    cases m with
    | zero => exact absurd rfl h
    | succ m => cases t <;> simp [fdset, fdget, fdget_nil]
  | succ n ih =>
    cases m with
    | zero => cases t <;> simp [fdset, fdget]
    | succ m =>
      have hm : m ≠ n := fun e => h (by rw [e])
      cases t with
      | nil => simpa [fdset, fdget, fdget_nil] using ih [] m hm
      | cons x t => simpa [fdset, fdget] using ih t m hm

theorem fdget_lowestFree (t : FdTable) : fdget t (lowestFree t) = none := by
  induction t with
  | nil => rfl
  | cons x t ih =>
    cases x with
    | none => rfl
    | some d => simpa [lowestFree, fdget] using ih

theorem fdget_ne_none_of_lt_lowestFree (t : FdTable) (m : Nat) (h : m < lowestFree t) :
    fdget t m ≠ none := by
  induction t generalizing m with
  | nil => simp [lowestFree] at h
  | cons x t ih =>
    cases x with
    | none => simp [lowestFree] at h
    | some d =>
      cases m with
      | zero => simp [fdget]
      | succ m =>
        have hm : m < lowestFree t := by simpa [lowestFree] using h
        simpa [fdget] using ih m hm

theorem lowestFree_ne_of_open (t : FdTable) (m : Nat) (h : fdget t m ≠ none) :
    lowestFree t ≠ m := by
  intro e
  exact h (e ▸ fdget_lowestFree t)

theorem two_le_lowestFree (t : FdTable) (h0 : fdget t 0 ≠ none) (h1 : fdget t 1 ≠ none) :
    2 ≤ lowestFree t := by
  have a := lowestFree_ne_of_open t 0 h0
  have b := lowestFree_ne_of_open t 1 h1
  omega

/-! ## Calls that create no process and no pipe -/

theorem QuietExt.qrefl (s : Proc) : QuietExt s s :=
  ⟨rfl, rfl, rfl, [], by simp, by simp⟩

theorem QuietExt.qtrans {a b c : Proc} (h1 : QuietExt a b) (h2 : QuietExt b c) : QuietExt a c := by
  obtain ⟨p1, f1, w1, e1, t1, q1⟩ := h1
  obtain ⟨p2, f2, w2, e2, t2, q2⟩ := h2
  refine ⟨p2.trans p1, f2.trans f1, w2.trans w1, e1 ++ e2, ?_, ?_⟩
  · rw [t2, t1, List.append_assoc]
  · intro e he
    rcases List.mem_append.1 he with h | h
    · exact q1 e h
    · exact q2 e h

theorem QuietExt.ite {s a b : Proc} (c : Prop) [Decidable c] (h1 : QuietExt s a)
    (h2 : QuietExt s b) : QuietExt s (if c then a else b) := by
  split <;> assumption

theorem quiet_log (s : Proc) (e : Event) (h : Event.quiet e = true) : QuietExt s (s.log e) :=
  ⟨rfl, rfl, rfl, [e], rfl, by simpa using h⟩

theorem quiet_perror (m : String) (s : Proc) : QuietExt s (perror m s) :=
  quiet_log s _ rfl

theorem quiet_close (fd : Int) (s : Proc) : QuietExt s (sys_close fd s).2 := by
  unfold sys_close
  split
  · exact ⟨rfl, rfl, rfl, [_], rfl, by simp [Event.quiet]⟩
  · exact quiet_log s _ rfl

theorem quiet_dup2 (a b : Int) (s : Proc) : QuietExt s (sys_dup2 a b s).2 := by
  unfold sys_dup2
  split
  · exact ⟨rfl, rfl, rfl, [_], rfl, by simp [Event.quiet]⟩
  · exact quiet_log s _ rfl

theorem quiet_open (w : World) (path : String) (fl m : Nat) (s : Proc) :
    QuietExt s (sys_open w path fl m s).2 := by
  unfold sys_open
  split
  · exact ⟨rfl, rfl, rfl, [_], rfl, by simp [Event.quiet]⟩
  · exact quiet_log s _ rfl

theorem quiet_redirection (w : World) (p : cmd_node) (s : Proc) :
    QuietExt s (redirection w p s) := by
  have step1 : QuietExt s (if p.in_ ≠ STDIN_FILENO then
      (if (sys_dup2 p.in_ STDIN_FILENO s).1 = -1 then perror "dup2 in" (sys_dup2 p.in_ STDIN_FILENO s).2
        else (sys_dup2 p.in_ STDIN_FILENO s).2) else s) :=
    QuietExt.ite _ (QuietExt.ite _ ((quiet_dup2 _ _ _).qtrans (quiet_perror _ _)) (quiet_dup2 _ _ _))
      (QuietExt.qrefl s)
  have fileStep : ∀ (path : String) (fl m : Nat) (nm1 nm2 : String) (tgt : Int) (s0 : Proc),
      QuietExt s0 (sys_close (sys_open w path fl m s0).1
        (if (sys_dup2 (sys_open w path fl m s0).1 tgt
              (if (sys_open w path fl m s0).1 < 0 then perror nm1 (sys_open w path fl m s0).2
                else (sys_open w path fl m s0).2)).1 = -1
         then perror nm2 (sys_dup2 (sys_open w path fl m s0).1 tgt
              (if (sys_open w path fl m s0).1 < 0 then perror nm1 (sys_open w path fl m s0).2
                else (sys_open w path fl m s0).2)).2
         else (sys_dup2 (sys_open w path fl m s0).1 tgt
              (if (sys_open w path fl m s0).1 < 0 then perror nm1 (sys_open w path fl m s0).2
                else (sys_open w path fl m s0).2)).2)).2 := by
    intro path fl m nm1 nm2 tgt s0
    have a : QuietExt s0 (if (sys_open w path fl m s0).1 < 0 then perror nm1 (sys_open w path fl m s0).2
                else (sys_open w path fl m s0).2) :=
      QuietExt.ite _ ((quiet_open _ _ _ _ _).qtrans (quiet_perror _ _)) (quiet_open _ _ _ _ _)
    exact (a.qtrans (QuietExt.ite _ ((quiet_dup2 _ _ _).qtrans (quiet_perror _ _)) (quiet_dup2 _ _ _))).qtrans
      (quiet_close _ _)
  unfold redirection
  cases hi : p.in_file <;> cases ho : p.out_file <;> simp only []
  · exact step1.qtrans (QuietExt.ite _ (QuietExt.ite _ ((quiet_dup2 _ _ _).qtrans (quiet_perror _ _)) (quiet_dup2 _ _ _)) (QuietExt.qrefl _))
  · exact (step1.qtrans (QuietExt.ite _ (QuietExt.ite _ ((quiet_dup2 _ _ _).qtrans (quiet_perror _ _)) (quiet_dup2 _ _ _)) (QuietExt.qrefl _))).qtrans (fileStep _ _ _ _ _ _ _)
  · exact (step1.qtrans (QuietExt.ite _ (QuietExt.ite _ ((quiet_dup2 _ _ _).qtrans (quiet_perror _ _)) (quiet_dup2 _ _ _)) (QuietExt.qrefl _))).qtrans (fileStep _ _ _ _ _ _ _)
  · exact ((step1.qtrans (QuietExt.ite _ (QuietExt.ite _ ((quiet_dup2 _ _ _).qtrans (quiet_perror _ _)) (quiet_dup2 _ _ _)) (QuietExt.qrefl _))).qtrans (fileStep _ _ _ _ _ _ _)).qtrans (fileStep _ _ _ _ _ _ _)

/-! ## Trace bookkeeping -/

theorem forkEvents_append (a b : List Event) :
    forkEvents (a ++ b) = forkEvents a ++ forkEvents b := by
  induction a with
  | nil => rfl
  | cons e a ih => cases e <;> simp [forkEvents, ih]

theorem pipeEvents_append (a b : List Event) :
    pipeEvents (a ++ b) = pipeEvents a ++ pipeEvents b := by
  induction a with
  | nil => rfl
  | cons e a ih => cases e <;> simp [pipeEvents, ih]

theorem waitCount_append (a b : List Event) :
    waitCount (a ++ b) = waitCount a + waitCount b := by
  induction a with
  | nil => simp [waitCount]
  | cons e a ih => cases e <;> simp [waitCount, ih]; omega

theorem closeCalls_append (a b : List Event) :
    closeCalls (a ++ b) = closeCalls a ++ closeCalls b := by
  induction a with
  | nil => rfl
  | cons e a ih => cases e <;> simp [closeCalls, ih]

theorem forkEvents_quiet (evs : List Event) (h : ∀ e ∈ evs, Event.quiet e = true) :
    forkEvents evs = [] := by
  induction evs with
  | nil => rfl
  | cons e evs ih =>
    have he := h e (List.mem_cons_self _ _)
    have ht := ih (fun x hx => h x (List.mem_cons_of_mem _ hx))
    cases e <;> simp_all [forkEvents, Event.quiet]

theorem pipeEvents_quiet (evs : List Event) (h : ∀ e ∈ evs, Event.quiet e = true) :
    pipeEvents evs = [] := by
  induction evs with
  | nil => rfl
  | cons e evs ih =>
    have he := h e (List.mem_cons_self _ _)
    have ht := ih (fun x hx => h x (List.mem_cons_of_mem _ hx))
    cases e <;> simp_all [pipeEvents, Event.quiet]

theorem waitCount_quiet (evs : List Event) (h : ∀ e ∈ evs, Event.quiet e = true) :
    waitCount evs = 0 := by
  induction evs with
  | nil => rfl
  | cons e evs ih =>
    have he := h e (List.mem_cons_self _ _)
    have ht := ih (fun x hx => h x (List.mem_cons_of_mem _ hx))
    cases e <;> simp_all [waitCount, Event.quiet]

theorem NoForkExt.of_quiet {s s' : Proc} (h : QuietExt s s') : NoForkExt s s' := by
  obtain ⟨_, f, _, evs, t, q⟩ := h
  exact ⟨f, evs, t, forkEvents_quiet evs q⟩

theorem NoForkExt.ntrans {a b c : Proc} (h1 : NoForkExt a b) (h2 : NoForkExt b c) :
    NoForkExt a c := by
  obtain ⟨f1, e1, t1, q1⟩ := h1
  obtain ⟨f2, e2, t2, q2⟩ := h2
  refine ⟨f2.trans f1, e1 ++ e2, ?_, ?_⟩
  · rw [t2, t1, List.append_assoc]
  · rw [forkEvents_append, q1, q2]; rfl

/-- The outcome of the child branch of `fork_cmd_node`, case by case. -/
theorem pipeline_child_outcome (w : World) (node : cmd_node) (s : Proc) :
    (pipeline_child w node s).1 =
      if w.searchBuiltInCommand node ≠ -1 then .exited 0
      else if w.execOk node.args then .execed node.args else .exited 1 := by
  unfold pipeline_child sys_execvp
  by_cases hb : w.searchBuiltInCommand node = -1
  · by_cases he : w.execOk node.args = true <;> simp [hb, he]
  · simp [hb]

theorem pipeline_child_noFork (w : World) (node : cmd_node) (s : Proc) :
    NoForkExt s (pipeline_child w node s).2 := by
  have hr := NoForkExt.of_quiet (quiet_redirection w node s)
  unfold pipeline_child sys_execvp execBuiltInCommand
  by_cases hb : w.searchBuiltInCommand node = -1
  · by_cases he : w.execOk node.args = true
    · simp only [hb, he, ne_eq, not_true_eq_false, if_false, if_true]
      exact hr.ntrans ⟨rfl, [_], rfl, rfl⟩
    · simp only [hb, he, ne_eq, not_true_eq_false, if_false, if_true]
      exact hr.ntrans (NoForkExt.ntrans (b := (redirection w node s).log (.execvp node.args))
        ⟨rfl, [_], rfl, rfl⟩ (NoForkExt.of_quiet (quiet_perror _ _)))
  · simp only [hb, ne_eq, not_false_eq_true, if_true]
    exact hr.ntrans ⟨rfl, [_], rfl, rfl⟩

/-- When the stage is a built-in, the child runs the dispatcher (its call is
in the trace) on the stage. -/
theorem pipeline_child_builtin (w : World) (node : cmd_node) (s : Proc)
    (hb : w.searchBuiltInCommand node ≠ -1) :
    ∃ ret, (pipeline_child w node s).2.trace =
      (redirection w node s).trace ++ [.builtin (w.searchBuiltInCommand node) ret] ∧
      ret = (w.execBuiltInCommand (w.searchBuiltInCommand node) node (redirection w node s).fds).1 := by
  unfold pipeline_child execBuiltInCommand
  simp [hb]

/-! ## One pass of the stage loop -/

theorem stage_loop_cons (w : World) (node : cmd_node) (rest : List cmd_node) (prev_read : Int)
    (pipefd : Int × Int) (child_cnt : Nat) (s : Proc) :
    stage_loop w (node :: rest) prev_read pipefd child_cnt s =
      if (!rest.isEmpty) && decide ((stagePipe w rest pipefd s).1.1 = -1) then
        (some (.ret (-1)), child_cnt, perror "pipe" (stagePipe w rest pipefd s).2)
      else if (sys_fork w (stageWired node rest prev_read (stagePipe w rest pipefd s).1.2)
            (stagePipe w rest pipefd s).2).1 < 0 then
        (some (.ret (-1)), child_cnt,
          perror "fork" (sys_fork w (stageWired node rest prev_read (stagePipe w rest pipefd s).1.2)
            (stagePipe w rest pipefd s).2).2)
      else if (sys_fork w (stageWired node rest prev_read (stagePipe w rest pipefd s).1.2)
            (stagePipe w rest pipefd s).2).1 = 0 then
        (some (pipeline_child w (stageWired node rest prev_read (stagePipe w rest pipefd s).1.2)
            (sys_fork w (stageWired node rest prev_read (stagePipe w rest pipefd s).1.2)
              (stagePipe w rest pipefd s).2).2).1, child_cnt,
          (pipeline_child w (stageWired node rest prev_read (stagePipe w rest pipefd s).1.2)
            (sys_fork w (stageWired node rest prev_read (stagePipe w rest pipefd s).1.2)
              (stagePipe w rest pipefd s).2).2).2)
      else
        stage_loop w rest
          (if !rest.isEmpty then (stagePipe w rest pipefd s).1.2.1 else prev_read)
          (stagePipe w rest pipefd s).1.2 (child_cnt + 1)
          (stageParent (stageWired node rest prev_read (stagePipe w rest pipefd s).1.2) prev_read
            (sys_fork w (stageWired node rest prev_read (stagePipe w rest pipefd s).1.2)
              (stagePipe w rest pipefd s).2).2) := by
  rfl

theorem stagePipe_noFork (w : World) (rest : List cmd_node) (pipefd : Int × Int) (s : Proc) :
    NoForkExt s (stagePipe w rest pipefd s).2 := by
  unfold stagePipe sys_pipe
  split
  · split
    · exact ⟨rfl, [_], rfl, rfl⟩
    · exact ⟨rfl, [_], rfl, rfl⟩
  · exact ⟨rfl, [], by simp, rfl⟩

theorem stageParent_quiet (node : cmd_node) (prev_read : Int) (s : Proc) :
    QuietExt s (stageParent node prev_read s) := by
  unfold stageParent
  exact (QuietExt.ite _ (quiet_close _ _) (QuietExt.qrefl _)).qtrans
    (QuietExt.ite _ (quiet_close _ _) (QuietExt.qrefl _))

/-- The stage loop only appends to the trace. -/
theorem stage_loop_ext (w : World) :
    ∀ (nodes : List cmd_node) (prev_read : Int) (pipefd : Int × Int) (child_cnt : Nat) (s : Proc),
      ∃ evs, (stage_loop w nodes prev_read pipefd child_cnt s).2.2.trace = s.trace ++ evs := by
  intro nodes
  induction nodes with
  | nil => intro _ _ _ s; exact ⟨[], by simp [stage_loop]⟩
  | cons node rest ih =>
    intro prev_read pipefd child_cnt s
    rw [stage_loop_cons]
    obtain ⟨_, pe, hpe, _⟩ := stagePipe_noFork w rest pipefd s
    split
    · exact ⟨pe ++ [_], by simp [perror, Proc.log, hpe]; rfl⟩
    · split
      · exact ⟨pe ++ [_, _], by simp [perror, Proc.log, sys_fork, hpe]; exact ⟨rfl, rfl⟩⟩
      · split
        · obtain ⟨_, ce, hce, _⟩ := pipeline_child_noFork w
            (stageWired node rest prev_read (stagePipe w rest pipefd s).1.2)
            (sys_fork w (stageWired node rest prev_read (stagePipe w rest pipefd s).1.2)
              (stagePipe w rest pipefd s).2).2
          exact ⟨pe ++ [_] ++ ce, by rw [hce]; simp [sys_fork, hpe]; rfl⟩
        · obtain ⟨_, _, _, qe, hqe, _⟩ := stageParent_quiet
            (stageWired node rest prev_read (stagePipe w rest pipefd s).1.2) prev_read
            (sys_fork w (stageWired node rest prev_read (stagePipe w rest pipefd s).1.2)
              (stagePipe w rest pipefd s).2).2
          obtain ⟨evs, hevs⟩ := ih
            (if !rest.isEmpty then (stagePipe w rest pipefd s).1.2.1 else prev_read)
            (stagePipe w rest pipefd s).1.2 (child_cnt + 1)
            (stageParent (stageWired node rest prev_read (stagePipe w rest pipefd s).1.2) prev_read
              (sys_fork w (stageWired node rest prev_read (stagePipe w rest pipefd s).1.2)
                (stagePipe w rest pipefd s).2).2)
          exact ⟨pe ++ [_] ++ qe ++ evs, by rw [hevs, hqe]; simp [sys_fork, hpe]; rfl⟩
/-- A process that got `0` from a `fork` call of the stage loop runs the child
branch for that stage on the inherited table, and that `fork` call is the
last one it makes. -/
theorem stage_loop_child (w : World) :
    ∀ (nodes : List cmd_node) (prev_read : Int) (pipefd : Int × Int) (child_cnt : Nat) (s : Proc)
      (evs : List Event) (stage : cmd_node) (snap : FdTable),
      (stage_loop w nodes prev_read pipefd child_cnt s).2.2.trace = s.trace ++ evs →
      (0, stage, snap) ∈ forkEvents evs →
      ∃ s1, s1.fds = snap ∧
        (stage_loop w nodes prev_read pipefd child_cnt s).1 = some (pipeline_child w stage s1).1 ∧
        (stage_loop w nodes prev_read pipefd child_cnt s).2.2 = (pipeline_child w stage s1).2 ∧
        ∃ pre, s1.trace = s.trace ++ pre ∧ (forkEvents pre).getLast? = some (0, stage, snap) := by
  intro nodes
  induction nodes with
  | nil =>
    intro _ _ _ s evs stage snap h hm
    have : evs = [] := by simpa [stage_loop] using h
    subst this
    simp [forkEvents] at hm
  | cons node rest ih =>
    intro prev_read pipefd child_cnt s evs stage snap h hm
    rw [stage_loop_cons] at h ⊢
    obtain ⟨_, pe, hpe, hpf⟩ := stagePipe_noFork w rest pipefd s
    generalize stagePipe w rest pipefd s = P at *
    generalize stageWired node rest prev_read P.1.2 = N at *
    have hFt : (sys_fork w N P.2).2.trace = s.trace ++ (pe ++ [.fork (sys_fork w N P.2).1 N P.2.fds]) := by
      simp [sys_fork, hpe]
    have hFf : (sys_fork w N P.2).2.fds = P.2.fds := rfl
    generalize sys_fork w N P.2 = F at *
    split at h
    · rename_i hc
      rw [if_pos hc]
      have : evs = pe ++ [.perror "pipe"] := by
        have h2 : s.trace ++ (pe ++ [.perror "pipe"]) = s.trace ++ evs := by
          rw [← h]; simp [perror, Proc.log, hpe]
        exact (List.append_cancel_left h2).symm
      subst this
      simp [forkEvents_append, hpf, forkEvents] at hm
    · rename_i hc
      rw [if_neg hc]
      split at h
      · rename_i hlt
        have : evs = pe ++ [.fork F.1 N P.2.fds] ++ [.perror "fork"] := by
          have h2 : s.trace ++ (pe ++ [.fork F.1 N P.2.fds] ++ [.perror "fork"]) = s.trace ++ evs := by
            rw [← h]; simp [perror, Proc.log, hFt]
          exact (List.append_cancel_left h2).symm
        subst this
        simp [forkEvents_append, hpf, forkEvents] at hm
        omega
      · rename_i hlt
        rw [if_neg hlt]
        split at h
        · rename_i hz
          rw [if_pos hz]
          obtain ⟨_, ce, hce, hcf⟩ := pipeline_child_noFork w N F.2
          have : evs = pe ++ [.fork F.1 N P.2.fds] ++ ce := by
            have h2 : s.trace ++ (pe ++ [.fork F.1 N P.2.fds] ++ ce) = s.trace ++ evs := by
              rw [← h, hce, hFt]; simp
            exact (List.append_cancel_left h2).symm
          subst this
          simp [forkEvents_append, hpf, hcf, forkEvents] at hm
          obtain ⟨_, h1, h2⟩ := hm
          subst h1 h2
          refine ⟨F.2, hFf, rfl, rfl, pe ++ [.fork F.1 stage P.2.fds], hFt, ?_⟩
          simp [forkEvents_append, hpf, forkEvents, hz]
        · rename_i hz
          rw [if_neg hz]
          obtain ⟨_, _, _, qe, hqe, hqq⟩ := stageParent_quiet N prev_read F.2
          have hqf := forkEvents_quiet qe hqq
          generalize stageParent N prev_read F.2 = S at *
          obtain ⟨evs2, hevs2⟩ := stage_loop_ext w rest
            (if !rest.isEmpty then P.1.2.1 else prev_read) P.1.2 (child_cnt + 1) S
          have : evs = pe ++ [.fork F.1 N P.2.fds] ++ qe ++ evs2 := by
            have h2 : s.trace ++ (pe ++ [.fork F.1 N P.2.fds] ++ qe ++ evs2) = s.trace ++ evs := by
              rw [← h, hevs2, hqe, hFt]; simp
            exact (List.append_cancel_left h2).symm
          subst this
          have hm2 : (0, stage, snap) ∈ forkEvents evs2 := by
            simp [forkEvents_append, hpf, hqf, forkEvents] at hm
            rcases hm with ⟨h0, _⟩ | hm
            · exact absurd h0.symm hz
            · exact hm
          obtain ⟨s1, hs1, ho, hst, pre, hpre, hlast⟩ := ih _ _ _ S evs2 stage snap hevs2 hm2
          refine ⟨s1, hs1, ho, hst, pe ++ [.fork F.1 N P.2.fds] ++ qe ++ pre, ?_, ?_⟩
          · rw [hpre, hqe, hFt]; simp
          · simp only [forkEvents_append, hpf, hqf, forkEvents, List.nil_append, List.append_nil,
              List.singleton_append]
            cases hfp : forkEvents pre with
            | nil => simp [hfp] at hlast
            | cons a l => simpa [hfp, List.getLast?_cons_cons] using hlast

/-! ## The wait loop and the whole of `fork_cmd_node` -/

theorem wait_loop_noFork (w : World) :
    ∀ (n : Nat) (status : Int) (s : Proc), NoForkExt s (wait_loop w n status s).2.2 := by
  intro n
  induction n with
  | zero => intro _ s; exact ⟨rfl, [], by simp [wait_loop], rfl⟩
  | succ n ih =>
    intro status s
    unfold wait_loop
    have hw : NoForkExt s (sys_wait w s).2 := ⟨rfl, [_], rfl, rfl⟩
    dsimp only
    split
    · exact hw.ntrans (NoForkExt.of_quiet (quiet_perror _ _))
    · exact hw.ntrans (ih _ _)

theorem wait_loop_ret (w : World) :
    ∀ (n : Nat) (status : Int) (s : Proc) (o : Outcome),
      (wait_loop w n status s).1 = some o → o = .ret (-1) := by
  intro n
  induction n with
  | zero => intro _ _ o h; simp [wait_loop] at h
  | succ n ih =>
    intro status s o h
    unfold wait_loop at h
    dsimp only at h
    split at h
    · simpa using h.symm
    · exact ih _ _ o h

/-- Inside the stage loop the function returns only `-1`. -/
theorem stage_loop_ret (w : World) :
    ∀ (nodes : List cmd_node) (prev_read : Int) (pipefd : Int × Int) (child_cnt : Nat) (s : Proc)
      (v : Int), (stage_loop w nodes prev_read pipefd child_cnt s).1 = some (.ret v) → v = -1 := by
  intro nodes
  induction nodes with
  | nil => intro _ _ _ _ v h; simp [stage_loop] at h
  | cons node rest ih =>
    intro prev_read pipefd child_cnt s v h
    rw [stage_loop_cons] at h
    split at h
    · simpa using h.symm
    · split at h
      · simpa using h.symm
      · split at h
        · rw [pipeline_child_outcome] at h
          split at h
          · simp at h
          · split at h <;> simp at h
        · exact ih _ _ _ _ v h

/-- The pair returned by `fork_cmd_node`, by the way the stage loop ended. -/
theorem fork_cmd_node_of_loop_some (w : World) (cmd : List cmd_node) (s : Proc) (o : Outcome)
    (h : (stage_loop w cmd STDIN_FILENO (0, 0) 0 s).1 = some o) :
    fork_cmd_node w cmd s = (o, (stage_loop w cmd STDIN_FILENO (0, 0) 0 s).2.2) := by
  unfold fork_cmd_node
  generalize stage_loop w cmd STDIN_FILENO (0, 0) 0 s = r at *
  obtain ⟨a, b, c⟩ := r
  simp only at h
  subst h
  rfl

theorem fork_cmd_node_of_loop_none (w : World) (cmd : List cmd_node) (s : Proc)
    (h : (stage_loop w cmd STDIN_FILENO (0, 0) 0 s).1 = none) :
    fork_cmd_node w cmd s =
      match wait_loop w (stage_loop w cmd STDIN_FILENO (0, 0) 0 s).2.1 0
          (stage_loop w cmd STDIN_FILENO (0, 0) 0 s).2.2 with
      | (some o, _, s) => (o, s)
      | (none, status, s) => if WIFEXITED status then (.ret 1, s) else (.ret (-1), s) := by
  unfold fork_cmd_node
  generalize stage_loop w cmd STDIN_FILENO (0, 0) 0 s = r at *
  obtain ⟨a, b, c⟩ := r
  simp only at h
  subst h
  rfl

theorem fork_cmd_node_state_of_loop_none (w : World) (cmd : List cmd_node) (s : Proc)
    (h : (stage_loop w cmd STDIN_FILENO (0, 0) 0 s).1 = none) :
    (fork_cmd_node w cmd s).2 =
      (wait_loop w (stage_loop w cmd STDIN_FILENO (0, 0) 0 s).2.1 0
          (stage_loop w cmd STDIN_FILENO (0, 0) 0 s).2.2).2.2 := by
  rw [fork_cmd_node_of_loop_none w cmd s h]
  generalize wait_loop w (stage_loop w cmd STDIN_FILENO (0, 0) 0 s).2.1 0
          (stage_loop w cmd STDIN_FILENO (0, 0) 0 s).2.2 = r
  obtain ⟨a, b, c⟩ := r
  cases a with
  | some o => rfl
  | none => dsimp only; split <;> rfl

/-- A process that got `0` from a `fork` call of `fork_cmd_node` ends as the
child branch of that stage does, and made no later `fork` call. -/
theorem fork_cmd_node_child (w : World) (cmd : List cmd_node) (s : Proc) (evs : List Event)
    (stage : cmd_node) (snap : FdTable)
    (h : (fork_cmd_node w cmd s).2.trace = s.trace ++ evs)
    (hm : (0, stage, snap) ∈ forkEvents evs) :
    ∃ s1, s1.fds = snap ∧ fork_cmd_node w cmd s = pipeline_child w stage s1 ∧
      ∃ pre, s1.trace = s.trace ++ pre ∧ (forkEvents pre).getLast? = some (0, stage, snap) := by
  cases hl : (stage_loop w cmd STDIN_FILENO (0, 0) 0 s).1 with
  | some o =>
    rw [fork_cmd_node_of_loop_some w cmd s o hl] at h ⊢
    obtain ⟨s1, hs1, ho, hst, hpre⟩ := stage_loop_child w cmd _ _ _ s evs stage snap h hm
    refine ⟨s1, hs1, ?_, hpre⟩
    rw [hl] at ho
    rw [hst, Option.some.inj ho]
  | none =>
    exfalso
    rw [fork_cmd_node_state_of_loop_none w cmd s hl] at h
    obtain ⟨e1, he1⟩ := stage_loop_ext w cmd STDIN_FILENO (0, 0) 0 s
    obtain ⟨_, e2, he2, hf2⟩ := wait_loop_noFork w (stage_loop w cmd STDIN_FILENO (0, 0) 0 s).2.1 0
      (stage_loop w cmd STDIN_FILENO (0, 0) 0 s).2.2
    have : evs = e1 ++ e2 := by
      have h2 : s.trace ++ (e1 ++ e2) = s.trace ++ evs := by
        rw [← h, he2, he1]; simp
      exact (List.append_cancel_left h2).symm
    subst this
    rw [forkEvents_append, hf2, List.append_nil] at hm
    obtain ⟨s1, _, ho, _⟩ := stage_loop_child w cmd _ _ _ s e1 stage snap he1 hm
    rw [hl] at ho
    exact Option.noConfusion ho

/-! ## `spawn_proc`, the loop of `shell` and the children -/

/-- C9: `spawn_proc` makes exactly one `fork` call. In the parent (the call
did not return 0) it returns `-1` exactly when `fork` failed, and then made no
other call than reporting; otherwise it returns `1` after one `waitpid` on
that child, whose exit status it never reads. The parent's descriptor table is
untouched either way. -/
theorem spawn_proc_parent (w : World) (p : cmd_node) (s : Proc)
    (hparent : w.forkRet s.nfork ≠ 0) :
    (spawn_proc w p s).2.nfork = s.nfork + 1 ∧
    ((spawn_proc w p s).1 = .ret (-1) ↔ w.forkRet s.nfork < 0) ∧
    (w.forkRet s.nfork < 0 →
      (spawn_proc w p s).2.trace =
        s.trace ++ [.fork (w.forkRet s.nfork) p s.fds, .perror "fork"]) ∧
    (¬ w.forkRet s.nfork < 0 →
      (spawn_proc w p s).1 = .ret 1 ∧
      (spawn_proc w p s).2.trace =
        s.trace ++ [.fork (w.forkRet s.nfork) p s.fds, .waitpid (w.forkRet s.nfork)]) ∧
    (spawn_proc w p s).2.fds = s.fds := by
  unfold spawn_proc
  by_cases hlt : w.forkRet s.nfork < 0
  · simp [sys_fork, hlt, perror, Proc.log]
  · simp [sys_fork, hlt, hparent, sys_waitpid, Proc.log]

theorem spawn_proc_parent_witness :
    worldParent.forkRet proc0.nfork ≠ 0 ∧
    (spawn_proc worldParent (stageOf ["ls"]) proc0).1 = .ret 1 ∧
    (spawn_proc worldParent (stageOf ["ls"]) proc0).2.fds = proc0.fds :=
  ⟨by decide,
   ((spawn_proc_parent worldParent (stageOf ["ls"]) proc0 (by decide)).2.2.2.1 (by decide)).1,
   (spawn_proc_parent worldParent (stageOf ["ls"]) proc0 (by decide)).2.2.2.2⟩

/-- C4: `spawn_proc` and `fork_cmd_node` return only `1` or `-1`, whatever
`fork`, `pipe`, `execvp` and `wait` do, so one pass through the body of the
loop of `shell` takes the `break` exactly when the line is a single stage
that is a built-in and the dispatcher returned `0` for it. -/
theorem loop_left_only_by_exit_status (w : World) :
    (∀ p s v, (spawn_proc w p s).1 = .ret v → v = 1 ∨ v = -1) ∧
    (∀ cmd s v, (fork_cmd_node w cmd s).1 = .ret v → v = 1 ∨ v = -1) ∧
    (∀ line s, (shell_iteration w line s).1 = .leave ↔
      ∃ temp, line = some (temp, []) ∧ w.searchBuiltInCommand temp ≠ -1 ∧
        (w.execBuiltInCommand (w.searchBuiltInCommand temp) temp (builtin_entry w temp s).fds).1
          = 0) := by
  have hsp : ∀ p s v, (spawn_proc w p s).1 = .ret v → v = 1 ∨ v = -1 := by
    intro p s v h
    unfold spawn_proc sys_execvp at h
    dsimp only at h
    split at h
    · right; simpa using h.symm
    · split at h
      · split at h
        · simp at h
        · rename_i r s2 heq
          simp at heq
          simp [← heq.1.2] at h
      · left; simpa using h.symm
  have hfc : ∀ cmd s v, (fork_cmd_node w cmd s).1 = .ret v → v = 1 ∨ v = -1 := by
    intro cmd s v h
    cases hl : (stage_loop w cmd STDIN_FILENO (0, 0) 0 s).1 with
    | some o =>
      rw [fork_cmd_node_of_loop_some w cmd s o hl] at h
      simp only at h
      subst h
      right
      exact stage_loop_ret w cmd _ _ _ s v hl
    | none =>
      rw [fork_cmd_node_of_loop_none w cmd s hl] at h
      have hw := wait_loop_ret w (stage_loop w cmd STDIN_FILENO (0, 0) 0 s).2.1 0
        (stage_loop w cmd STDIN_FILENO (0, 0) 0 s).2.2
      generalize wait_loop w (stage_loop w cmd STDIN_FILENO (0, 0) 0 s).2.1 0
        (stage_loop w cmd STDIN_FILENO (0, 0) 0 s).2.2 = r at h hw
      obtain ⟨a, b, c⟩ := r
      cases a with
      | some o =>
        have := hw o rfl
        subst this
        right; simpa using h.symm
      | none =>
        dsimp only at h
        split at h
        · left; simpa using h.symm
        · right; simpa using h.symm
  refine ⟨hsp, hfc, ?_⟩
  · intro line s
    cases line with
    | none => simp [shell_iteration]
    | some pr =>
      obtain ⟨temp, rest⟩ := pr
      cases rest with
      | nil =>
        by_cases hb : w.searchBuiltInCommand temp = -1
        · have h1 : (shell_iteration w (some (temp, [])) s).1 ≠ .leave := by
            intro hc
            unfold shell_iteration at hc
            simp only [List.isEmpty_nil, if_true, hb, ne_eq, not_true_eq_false, if_false] at hc
            have := hsp temp s
            generalize spawn_proc w temp s = r at hc this
            obtain ⟨o, s2⟩ := r
            cases o with
            | ret v =>
              simp only at hc
              split at hc
              · rename_i h0
                rcases this v rfl with h | h <;> omega
              · simp at hc
            | exited c => simp at hc
            | execed a => simp at hc
          simp [h1, hb]
        · unfold shell_iteration
          simp only [List.isEmpty_nil, if_true, hb, ne_eq, not_false_eq_true]
          constructor
          · intro h
            refine ⟨temp, rfl, hb, ?_⟩
            by_contra hne
            have hne2 : ¬ (run_builtin w (w.searchBuiltInCommand temp) temp s).1 = 0 := hne
            simp [hne2] at h
          · rintro ⟨t, ht, _, h0⟩
            have ht2 : temp = t := by simpa using ht
            subst ht2
            have h02 : (run_builtin w (w.searchBuiltInCommand temp) temp s).1 = 0 := h0
            simp [h02]
      | cons n2 rest =>
        have h1 : (shell_iteration w (some (temp, n2 :: rest)) s).1 ≠ .leave := by
          intro hc
          unfold shell_iteration at hc
          simp only [List.isEmpty_cons, Bool.false_eq_true, if_false] at hc
          have := hfc (temp :: n2 :: rest) s
          generalize fork_cmd_node w (temp :: n2 :: rest) s = r at hc this
          obtain ⟨o, s2⟩ := r
          cases o with
          | ret v =>
            simp only at hc
            split at hc
            · rename_i h0
              rcases this v rfl with h | h <;> omega
            · simp at hc
          | exited c => simp at hc
          | execed a => simp at hc
        simp [h1]

/-- C6: in `spawn_proc` a child (its `fork` returned 0) never returns from the
function, and exits with status 1 when `execvp` fails, having made no further
`fork` call. In `fork_cmd_node` a process that got 0 from one of the `fork`
calls never returns from the function, makes no `fork` call after that one
(it does not go on with the stage loop), and exits with status 1 when the
stage is not a built-in and `execvp` fails. -/
theorem child_never_returns (w : World) :
    (∀ p s, w.forkRet s.nfork = 0 →
      (∀ v, (spawn_proc w p s).1 ≠ .ret v) ∧ (spawn_proc w p s).2.nfork = s.nfork + 1 ∧
      (w.execOk p.args = false → (spawn_proc w p s).1 = .exited 1)) ∧
    (∀ cmd s evs stage snap,
      (fork_cmd_node w cmd s).2.trace = s.trace ++ evs →
      (0, stage, snap) ∈ forkEvents evs →
      (∀ v, (fork_cmd_node w cmd s).1 ≠ .ret v) ∧
      (forkEvents evs).getLast? = some (0, stage, snap) ∧
      (w.searchBuiltInCommand stage = -1 → w.execOk stage.args = false →
        (fork_cmd_node w cmd s).1 = .exited 1)) := by
  constructor
  · intro p s h0
    have hn := (quiet_redirection w p (sys_fork w p s).2).2.1
    unfold spawn_proc sys_execvp
    by_cases he : w.execOk p.args = true
    · simp [sys_fork, h0, he, Proc.log] at hn ⊢
      exact hn
    · simp [sys_fork, h0, he, Proc.log, perror] at hn ⊢
      exact hn
  · intro cmd s evs stage snap h hm
    obtain ⟨s1, _, hf, pre, hpre, hlast⟩ := fork_cmd_node_child w cmd s evs stage snap h hm
    obtain ⟨_, ce, hce, hcf⟩ := pipeline_child_noFork w stage s1
    have hevs : evs = pre ++ ce := by
      have h2 : s.trace ++ (pre ++ ce) = s.trace ++ evs := by
        rw [← h, hf, hce, hpre]; simp
      exact (List.append_cancel_left h2).symm
    refine ⟨?_, ?_, ?_⟩
    · intro v hv
      rw [hf, pipeline_child_outcome] at hv
      split at hv
      · simp at hv
      · split at hv <;> simp at hv
    · rw [hevs, forkEvents_append, hcf, List.append_nil]
      exact hlast
    · intro hb he
      rw [hf, pipeline_child_outcome]
      simp [hb, he]

/-- C7, as the code has it: in `fork_cmd_node`, a child whose stage is a
built-in runs the dispatcher in-process on that stage (after `redirection`)
and then exits with status 0, whatever value the dispatcher returned. -/
theorem builtin_child_exits_zero (w : World) (cmd : List cmd_node) (s : Proc) (evs : List Event)
    (stage : cmd_node) (snap : FdTable)
    (h : (fork_cmd_node w cmd s).2.trace = s.trace ++ evs)
    (hm : (0, stage, snap) ∈ forkEvents evs)
    (hb : w.searchBuiltInCommand stage ≠ -1) :
    (fork_cmd_node w cmd s).1 = .exited 0 ∧
    ∃ s1, s1.fds = snap ∧
      evs.getLast? = some (.builtin (w.searchBuiltInCommand stage)
        (w.execBuiltInCommand (w.searchBuiltInCommand stage) stage (redirection w stage s1).fds).1) := by
  obtain ⟨s1, hs1, hf, pre, hpre, _⟩ := fork_cmd_node_child w cmd s evs stage snap h hm
  refine ⟨?_, s1, hs1, ?_⟩
  · rw [hf, pipeline_child_outcome]; simp [hb]
  · obtain ⟨ret, ht, hret⟩ := pipeline_child_builtin w stage s1 hb
    obtain ⟨_, _, _, qe, hqe, _⟩ := quiet_redirection w stage s1
    have hevs : evs = pre ++ qe ++ [.builtin (w.searchBuiltInCommand stage) ret] := by
      have h2 : s.trace ++ (pre ++ qe ++ [.builtin (w.searchBuiltInCommand stage) ret])
          = s.trace ++ evs := by
        rw [← h, hf, ht, hqe, hpre]; simp
      exact (List.append_cancel_left h2).symm
    rw [hevs, ← hret]
    simp

theorem builtin_child_exits_zero_witness :
    (fork_cmd_node worldChildBuiltin [stageOf ["cd"], stageOf ["wc"]] proc0).1 = .exited 0 :=
  (builtin_child_exits_zero worldChildBuiltin [stageOf ["cd"], stageOf ["wc"]] proc0
    (fork_cmd_node worldChildBuiltin [stageOf ["cd"], stageOf ["wc"]] proc0).2.trace
    { stageOf ["cd"] with out := 4 }
    [tty, tty, tty, some (.pipeRd 0), some (.pipeWr 0)]
    (by simp [proc0]) (by decide) (by decide)).1

/-- C7 as stated fails: the first child of `cd | wc`, where the built-in `cd`
returns status 1, exits with status 0 and not with 1. -/
theorem builtin_child_status_counterexample :
    (fork_cmd_node worldChildBuiltin [stageOf ["cd"], stageOf ["wc"]] proc0).1 = .exited 0 ∧
    (fork_cmd_node worldChildBuiltin [stageOf ["cd"], stageOf ["wc"]] proc0).2.trace =
      [.pipe 0 3 4,
       .fork 0 { stageOf ["cd"] with out := 4 } [tty, tty, tty, some (.pipeRd 0), some (.pipeWr 0)],
       .dup2 4 1 1,
       .builtin 0 1] ∧
    (worldChildBuiltin.execBuiltInCommand 0 { stageOf ["cd"] with out := 4 }
      [tty, some (.pipeWr 0), tty, some (.pipeRd 0), some (.pipeWr 0)]).1 = 1 ∧
    (fork_cmd_node worldChildBuiltin [stageOf ["cd"], stageOf ["wc"]] proc0).1 ≠ .exited 1 := by
  decide

/-! ## `redirection` on the descriptor table -/

theorem fdget_fdset (t : FdTable) (n m : Nat) (v : Option OFile) :
    fdget (fdset t n v) m = if m = n then v else fdget t m := by
  by_cases h : m = n
  · subst h; simp [fdget_fdset_self]
  · simp [h, fdget_fdset_of_ne t n m v h]

theorem redirection_eq (w : World) (p : cmd_node) (s : Proc) :
    redirection w p s =
      match p.out_file with
      | some path =>
        redirFile w path O_WRONLY_CREAT_TRUNC MODE_0644 "open out_file" "dup2 out_file"
          STDOUT_FILENO
          (match p.in_file with
           | some path =>
             redirFile w path O_RDONLY 0 "open in_file" "dup2 in_file" STDIN_FILENO (redirPipes p s)
           | none => redirPipes p s)
      | none =>
        match p.in_file with
        | some path =>
          redirFile w path O_RDONLY 0 "open in_file" "dup2 in_file" STDIN_FILENO (redirPipes p s)
        | none => redirPipes p s := by
  unfold redirection
  cases p.in_file <;> cases p.out_file <;> rfl

/-- A `dup2` call closes nothing: every open descriptor stays open. -/
theorem sys_dup2_keeps_open (a b : Int) (s : Proc) (k : Nat) (h : fdget s.fds k ≠ none) :
    fdget (sys_dup2 a b s).2.fds k ≠ none := by
  unfold sys_dup2
  split
  · rename_i hc
    simp only [Bool.and_eq_true, decide_eq_true_eq, isOpen] at hc
    simp only [fdget_fdset]
    split
    · intro hn
      simp [hn] at hc
    · exact h
  · exact h

theorem dup2_step_keeps_open (c : Prop) [Decidable c] (a b : Int) (m : String) (s : Proc)
    (k : Nat) (h : fdget s.fds k ≠ none) :
    fdget (if c then
      (if (sys_dup2 a b s).1 = -1 then perror m (sys_dup2 a b s).2 else (sys_dup2 a b s).2)
      else s).fds k ≠ none := by
  by_cases hc : c
  · rw [if_pos hc]
    by_cases hr : (sys_dup2 a b s).1 = -1
    · rw [if_pos hr]; exact sys_dup2_keeps_open _ _ _ _ h
    · rw [if_neg hr]; exact sys_dup2_keeps_open _ _ _ _ h
  · rw [if_neg hc]; exact h

theorem redirPipes_keeps_open (p : cmd_node) (s : Proc) (k : Nat) (h : fdget s.fds k ≠ none) :
    fdget (redirPipes p s).fds k ≠ none :=
  dup2_step_keeps_open _ _ _ _ _ k (dup2_step_keeps_open _ _ _ _ _ k h)

/-- A file part whose `open` succeeds, run with descriptors 0 and 1 open:
the target descriptor now refers to the file just opened and no other
descriptor changed. -/
theorem redirFile_opened (w : World) (path : String) (flags mode : Nat) (msg1 msg2 : String)
    (tgt : Nat) (s : Proc) (htgt : tgt < 2)
    (h0 : fdget s.fds 0 ≠ none) (h1 : fdget s.fds 1 ≠ none) (hok : w.openOk path flags = true) :
    (∀ fd, fdget (redirFile w path flags mode msg1 msg2 (tgt : Int) s).fds fd =
      if fd = tgt then some (.file path flags mode) else fdget s.fds fd) ∧
    (redirFile w path flags mode msg1 msg2 (tgt : Int) s).trace =
      s.trace ++ [.open_ path flags mode (lowestFree s.fds),
                  .dup2 (lowestFree s.fds) tgt tgt, .close (lowestFree s.fds) 0] := by
  have h2 := two_le_lowestFree s.fds h0 h1
  have hfree := fdget_lowestFree s.fds
  have hne : lowestFree s.fds ≠ tgt := by omega
  have hlt : ¬ ((lowestFree s.fds : Int) < 0) := by omega
  have hopen1 : isOpen (fdset s.fds (lowestFree s.fds) (some (.file path flags mode)))
      (lowestFree s.fds : Int) = true := by
    simp [isOpen, fdget_fdset]
  have hopen2 : isOpen (fdset (fdset s.fds (lowestFree s.fds) (some (.file path flags mode))) tgt
      (some (.file path flags mode))) (lowestFree s.fds : Int) = true := by
    simp [isOpen, fdget_fdset, hne]
  have hneg : ¬ ((tgt : Int) = -1) := by omega
  unfold redirFile sys_open
  simp only [hok, if_true, hlt, if_false]
  unfold sys_dup2
  simp only [hopen1, Bool.true_and, Nat.cast_nonneg, decide_True, if_true, hneg, if_false,
    Int.toNat_ofNat, fdget_fdset_self]
  unfold sys_close
  simp only [hopen2, if_true, Int.toNat_ofNat]
  refine ⟨?_, by simp⟩
  intro fd
  simp only [fdget_fdset]
  by_cases hfd : fd = lowestFree s.fds
  · subst hfd; simp [hne, hfree]
  · simp [hfd]

/-- A file part whose `open` fails changes no descriptor. -/
theorem redirFile_failed (w : World) (path : String) (flags mode : Nat) (msg1 msg2 : String)
    (tgt : Int) (s : Proc) (hok : w.openOk path flags = false) :
    (redirFile w path flags mode msg1 msg2 tgt s).fds = s.fds ∧
    (redirFile w path flags mode msg1 msg2 tgt s).trace =
      s.trace ++ [.open_ path flags mode (-1), .perror msg1, .dup2 (-1) tgt (-1), .perror msg2,
                  .close (-1) (-1)] := by
  unfold redirFile sys_open
  simp [hok, sys_dup2, sys_close, isOpen, perror, Proc.log]
/-- A file part run with descriptors 0 and 1 open leaves both open. -/
theorem redirFile_keeps_std (w : World) (path : String) (flags mode : Nat) (msg1 msg2 : String)
    (tgt : Nat) (s : Proc) (htgt : tgt < 2)
    (h0 : fdget s.fds 0 ≠ none) (h1 : fdget s.fds 1 ≠ none) :
    fdget (redirFile w path flags mode msg1 msg2 (tgt : Int) s).fds 0 ≠ none ∧
    fdget (redirFile w path flags mode msg1 msg2 (tgt : Int) s).fds 1 ≠ none := by
  by_cases hok : w.openOk path flags = true
  · have h := (redirFile_opened w path flags mode msg1 msg2 tgt s htgt h0 h1 hok).1
    rw [h 0, h 1]
    constructor
    · split
      · simp
      · exact h0
    · split
      · simp
      · exact h1
  · have hok2 : w.openOk path flags = false := by simpa using hok
    rw [(redirFile_failed w path flags mode msg1 msg2 tgt s hok2).1]
    exact ⟨h0, h1⟩

/-- C3, as the code has it: when descriptors 0 and 1 are open at the call,
then whatever the `in` and `out` bindings of the stage are, after
`redirection` standard input refers to `in_file` (opened read-only) if it is
set and can be opened, and standard output refers to `out_file` (opened
write-only, create, truncate, mode 0644) if it is set and can be opened. -/
theorem file_redirection_wins (w : World) (p : cmd_node) (s : Proc)
    (h0 : fdget s.fds 0 ≠ none) (h1 : fdget s.fds 1 ≠ none) :
    (∀ path, p.in_file = some path → w.openOk path O_RDONLY = true →
      fdget (redirection w p s).fds 0 = some (.file path O_RDONLY 0)) ∧
    (∀ path, p.out_file = some path → w.openOk path O_WRONLY_CREAT_TRUNC = true →
      fdget (redirection w p s).fds 1 = some (.file path O_WRONLY_CREAT_TRUNC MODE_0644)) := by
  have p0 := redirPipes_keeps_open p s 0 h0
  have p1 := redirPipes_keeps_open p s 1 h1
  rw [redirection_eq]
  constructor
  · intro path hin hok
    have hA := (redirFile_opened w path O_RDONLY 0 "open in_file" "dup2 in_file" 0
      (redirPipes p s) (by omega) p0 p1 hok).1
    have hK := redirFile_keeps_std w path O_RDONLY 0 "open in_file" "dup2 in_file" 0
      (redirPipes p s) (by omega) p0 p1
    rw [hin]
    cases hout : p.out_file with
    | none => simpa [STDIN_FILENO] using hA 0
    | some path2 =>
      dsimp only
      by_cases hok2 : w.openOk path2 O_WRONLY_CREAT_TRUNC = true
      · have hB := (redirFile_opened w path2 O_WRONLY_CREAT_TRUNC MODE_0644 "open out_file"
          "dup2 out_file" 1 _ (by omega) hK.1 hK.2 hok2).1
        have := hB 0
        simp only [STDOUT_FILENO, STDIN_FILENO] at this ⊢
        rw [show ((1 : Nat) : Int) = 1 from rfl, show ((0 : Nat) : Int) = 0 from rfl] at this
        rw [this]
        simpa using hA 0
      · have hok3 : w.openOk path2 O_WRONLY_CREAT_TRUNC = false := by simpa using hok2
        rw [(redirFile_failed w path2 _ _ _ _ _ _ hok3).1]
        simpa [STDIN_FILENO] using hA 0
  · intro path2 hout hok2
    rw [hout]
    dsimp only
    cases hin : p.in_file with
    | none =>
      have hB := (redirFile_opened w path2 O_WRONLY_CREAT_TRUNC MODE_0644 "open out_file"
          "dup2 out_file" 1 _ (by omega) p0 p1 hok2).1
      simpa [STDOUT_FILENO] using hB 1
    | some path =>
      have hK := redirFile_keeps_std w path O_RDONLY 0 "open in_file" "dup2 in_file" 0
        (redirPipes p s) (by omega) p0 p1
      have hB := (redirFile_opened w path2 O_WRONLY_CREAT_TRUNC MODE_0644 "open out_file"
          "dup2 out_file" 1 _ (by omega) hK.1 hK.2 hok2).1
      simpa [STDOUT_FILENO, STDIN_FILENO] using hB 1

theorem file_redirection_wins_witness :
    fdget (redirection worldParent
        { args := ["cat"], in_file := some "file.txt", out_file := some "out.txt", in_ := 3, out := 4 }
        { proc0 with fds := [tty, tty, tty, some (.pipeRd 0), some (.pipeWr 1)] }).fds 0
      = some (.file "file.txt" O_RDONLY 0) ∧
    fdget (redirection worldParent
        { args := ["cat"], in_file := some "file.txt", out_file := some "out.txt", in_ := 3, out := 4 }
        { proc0 with fds := [tty, tty, tty, some (.pipeRd 0), some (.pipeWr 1)] }).fds 1
      = some (.file "out.txt" O_WRONLY_CREAT_TRUNC MODE_0644) :=
  ⟨(file_redirection_wins worldParent
      { args := ["cat"], in_file := some "file.txt", out_file := some "out.txt", in_ := 3, out := 4 }
      { proc0 with fds := [tty, tty, tty, some (.pipeRd 0), some (.pipeWr 1)] }
      (by decide) (by decide)).1 "file.txt" rfl rfl,
   (file_redirection_wins worldParent
      { args := ["cat"], in_file := some "file.txt", out_file := some "out.txt", in_ := 3, out := 4 }
      { proc0 with fds := [tty, tty, tty, some (.pipeRd 0), some (.pipeWr 1)] }
      (by decide) (by decide)).2 "out.txt" rfl rfl⟩

/-- C3 as stated fails: in a process whose descriptor 0 is closed, `open`
returns 0 for `in_file`, so `dup2(0, 0)` changes nothing and `close(0)` closes
the file again: after `redirection` standard input refers to nothing. -/
theorem file_redirection_counterexample :
    worldParent.openOk "file.txt" O_RDONLY = true ∧
    (redirection worldParent { stageOf ["cat"] with in_file := some "file.txt" } procNoStdin).trace
      = [.open_ "file.txt" O_RDONLY 0 0, .dup2 0 0 0, .close 0 0] ∧
    fdget (redirection worldParent { stageOf ["cat"] with in_file := some "file.txt" }
      procNoStdin).fds 0 = none := by
  decide

theorem isOpen_natCast (t : FdTable) (n : Nat) : isOpen t (n : Int) = (fdget t n).isSome := by
  simp [isOpen]

theorem isOpen_neg_one (t : FdTable) : isOpen t (-1) = false := by
  simp [isOpen]

theorem Redirects.rrefl (s : Proc) (h0 : fdget s.fds 0 ≠ none) (h1 : fdget s.fds 1 ≠ none) :
    Redirects s s :=
  ⟨fun _ _ => rfl, h0, h1, [], by simp, by simp, by simp, by simp⟩

theorem isOpen_eq_of_agree (a b : FdTable) (fd : Int)
    (hag : ∀ k, 2 ≤ k → fdget a k = fdget b k)
    (a0 : fdget a 0 ≠ none) (a1 : fdget a 1 ≠ none) (hb : isOpen a fd = false) :
    isOpen b fd = false := by
  unfold isOpen at hb ⊢
  by_cases hneg : 0 ≤ fd
  · obtain ⟨k, rfl⟩ := Int.eq_ofNat_of_zero_le hneg
    simp only [Nat.cast_nonneg, decide_True, Bool.true_and, Int.toNat_ofNat] at hb ⊢
    by_cases hk : 2 ≤ k
    · rw [← hag k hk]; exact hb
    · have : k = 0 ∨ k = 1 := by omega
      rcases this with rfl | rfl
      · cases hx : fdget a 0 with
        | none => exact absurd hx a0
        | some d => simp [hx] at hb
      · cases hx : fdget a 1 with
        | none => exact absurd hx a1
        | some d => simp [hx] at hb
  · simp [hneg]

theorem Redirects.rtrans {a b c : Proc} (h1 : Redirects a b) (h2 : Redirects b c) :
    Redirects a c := by
  obtain ⟨g1, z1, o1, q1, t1, u1, d1, c1⟩ := h1
  obtain ⟨g2, z2, o2, q2, t2, u2, d2, c2⟩ := h2
  refine ⟨fun fd h => (g2 fd h).trans (g1 fd h), z2, o2, q1 ++ q2, ?_, ?_, ?_, ?_⟩
  · rw [t2, t1, List.append_assoc]
  · intro e he
    rcases List.mem_append.1 he with h | h
    · exact u1 e h
    · exact u2 e h
  · intro o n x he
    rcases List.mem_append.1 he with h | h
    · exact d1 o n x h
    · exact isOpen_eq_of_agree b.fds a.fds o g1 z1 o1 (d2 o n x h)
  · intro fd x he
    rcases List.mem_append.1 he with h | h
    · exact c1 fd x h
    · exact isOpen_eq_of_agree b.fds a.fds fd g1 z1 o1 (c2 fd x h)

theorem redirFile_redirects (w : World) (path : String) (flags mode : Nat) (msg1 msg2 : String)
    (tgt : Nat) (s : Proc) (htgt : tgt < 2)
    (h0 : fdget s.fds 0 ≠ none) (h1 : fdget s.fds 1 ≠ none) :
    Redirects s (redirFile w path flags mode msg1 msg2 (tgt : Int) s) := by
  have hk := redirFile_keeps_std w path flags mode msg1 msg2 tgt s htgt h0 h1
  by_cases hok : w.openOk path flags = true
  · obtain ⟨hf, ht⟩ := redirFile_opened w path flags mode msg1 msg2 tgt s htgt h0 h1 hok
    have hfree : isOpen s.fds (lowestFree s.fds : Int) = false := by
      rw [isOpen_natCast, fdget_lowestFree]; rfl
    refine ⟨?_, hk.1, hk.2, _, ht, by simp [Event.quiet], ?_, ?_⟩
    · intro fd hfd
      rw [hf fd, if_neg (by omega)]
    · intro o n x he
      simp only [List.mem_cons, List.mem_singleton, Event.dup2.injEq, List.mem_nil_iff,
        or_false, false_or, reduceCtorEq] at he
      rw [he.1]; exact hfree
    · intro fd x he
      simp only [List.mem_cons, List.mem_singleton, Event.close.injEq, List.mem_nil_iff,
        or_false, false_or, reduceCtorEq] at he
      rw [he.1]; exact hfree
  · have hok2 : w.openOk path flags = false := by simpa using hok
    obtain ⟨hf, ht⟩ := redirFile_failed w path flags mode msg1 msg2 tgt s hok2
    refine ⟨?_, hk.1, hk.2, _, ht, by simp [Event.quiet], ?_, ?_⟩
    · intro fd _
      rw [hf]
    · intro o n x he
      simp only [List.mem_cons, List.mem_singleton, Event.dup2.injEq, List.mem_nil_iff,
        or_false, false_or, reduceCtorEq] at he
      rw [he.1]; exact isOpen_neg_one _
    · intro fd x he
      simp only [List.mem_cons, List.mem_singleton, Event.close.injEq, List.mem_nil_iff,
        or_false, false_or, reduceCtorEq] at he
      rw [he.1]; exact isOpen_neg_one _

theorem redirPipes_default (p : cmd_node) (s : Proc) (hin : p.in_ = 0) (hout : p.out = 1) :
    redirPipes p s = s := by
  simp [redirPipes, hin, hout, STDIN_FILENO, STDOUT_FILENO]

/-- With default bindings, `redirection` is at most the two file parts. -/
theorem redirection_default (w : World) (p : cmd_node) (s : Proc) (hin : p.in_ = 0)
    (hout : p.out = 1) (h0 : fdget s.fds 0 ≠ none) (h1 : fdget s.fds 1 ≠ none) :
    Redirects s (redirection w p s) ∧
    (p.in_file = none → fdget (redirection w p s).fds 0 = fdget s.fds 0) ∧
    (p.out_file = none → fdget (redirection w p s).fds 1 = fdget s.fds 1) := by
  rw [redirection_eq, redirPipes_default p s hin hout]
  cases hi : p.in_file with
  | none =>
    cases ho : p.out_file with
    | none => exact ⟨Redirects.rrefl s h0 h1, fun _ => rfl, fun _ => rfl⟩
    | some path2 =>
      refine ⟨redirFile_redirects w path2 _ _ _ _ 1 s (by omega) h0 h1, fun _ => ?_, fun h => by simp at h⟩
      by_cases hok : w.openOk path2 O_WRONLY_CREAT_TRUNC = true
      · have := (redirFile_opened w path2 O_WRONLY_CREAT_TRUNC MODE_0644 "open out_file"
          "dup2 out_file" 1 s (by omega) h0 h1 hok).1 0
        simpa [STDOUT_FILENO] using this
      · have hok2 : w.openOk path2 O_WRONLY_CREAT_TRUNC = false := by simpa using hok
        dsimp only
        rw [(redirFile_failed w path2 _ _ _ _ _ s hok2).1]
  | some path =>
    have r1 := redirFile_redirects w path O_RDONLY 0 "open in_file" "dup2 in_file" 0 s (by omega) h0 h1
    have e1 : ∀ fd, fd ≠ 0 → fdget (redirFile w path O_RDONLY 0 "open in_file" "dup2 in_file"
        ((0 : Nat) : Int) s).fds fd = fdget s.fds fd := by
      intro fd hfd
      by_cases hok : w.openOk path O_RDONLY = true
      · rw [(redirFile_opened w path O_RDONLY 0 "open in_file" "dup2 in_file" 0 s (by omega) h0 h1
          hok).1 fd, if_neg hfd]
      · have hok2 : w.openOk path O_RDONLY = false := by simpa using hok
        rw [(redirFile_failed w path _ _ _ _ _ s hok2).1]
    cases ho : p.out_file with
    | none => exact ⟨r1, fun h => by simp at h, fun _ => e1 1 (by omega)⟩
    | some path2 =>
      refine ⟨r1.rtrans (redirFile_redirects w path2 _ _ _ _ 1 _ (by omega) r1.2.1 r1.2.2.1),
        fun h => by simp at h, fun h => by simp at h⟩
/-- The end of the built-in branch of `shell` (lines 211-214): restore the
streams from the saved duplicates `sin` and `sout`, then close both. -/
def restoreStreams (temp : cmd_node) (sin sout : Int) (s : Proc) : Proc :=
  let s := if temp.in_file.isSome then (sys_dup2 sin 0 s).2 else s
  let s := if temp.out_file.isSome then (sys_dup2 sout 1 s).2 else s
  let s := (sys_close sin s).2
  (sys_close sout s).2

theorem run_builtin_eq (w : World) (idx : Int) (temp : cmd_node) (s : Proc) :
    run_builtin w idx temp s =
      ((execBuiltInCommand w idx temp (builtin_entry w temp s)).1,
        restoreStreams temp (sys_dup STDIN_FILENO s).1
          (sys_dup STDOUT_FILENO (sys_dup STDIN_FILENO s).2).1
          (execBuiltInCommand w idx temp (builtin_entry w temp s)).2) := rfl

theorem restoreStreams_spec (temp : cmd_node) (A B : Nat) (s : Proc) (x0 x1 : OFile)
    (hA : 2 ≤ A) (hB : 2 ≤ B) (hAB : A ≠ B)
    (gA : fdget s.fds A = some x0) (gB : fdget s.fds B = some x1) :
    (∀ fd, fdget (restoreStreams temp (A : Int) (B : Int) s).fds fd =
      if fd = A ∨ fd = B then none
      else if fd = 0 ∧ temp.in_file.isSome then some x0
      else if fd = 1 ∧ temp.out_file.isSome then some x1
      else fdget s.fds fd) ∧
    (restoreStreams temp (A : Int) (B : Int) s).trace =
      s.trace ++ ((if temp.in_file.isSome then [Event.dup2 A 0 0] else []) ++
        ((if temp.out_file.isSome then [Event.dup2 B 1 1] else []) ++
          [Event.close A 0, Event.close B 0])) := by
  have hA0 : A ≠ 0 := by omega
  have hA1 : A ≠ 1 := by omega
  have hB0 : B ≠ 0 := by omega
  have hB1 : B ≠ 1 := by omega
  have hBA : B ≠ A := fun e => hAB e.symm
  unfold restoreStreams
  cases hi : temp.in_file <;> cases ho : temp.out_file <;>
    simp [sys_dup2, sys_close, isOpen, fdget_fdset, gA, gB, hA0, hA1, hB0, hB1, hAB, hBA] <;>
    intro fd <;> by_cases e1 : fd = A <;> by_cases e2 : fd = B <;> by_cases e3 : fd = 0 <;>
    by_cases e4 : fd = 1 <;> simp_all

/-- A `dup` of an open descriptor, run with descriptors 0 and 1 open: it
returns the lowest free descriptor, which is at least 2. -/
theorem sys_dup_open (fd : Nat) (s : Proc) (x : OFile) (h0 : fdget s.fds 0 ≠ none)
    (h1 : fdget s.fds 1 ≠ none) (hx : fdget s.fds fd = some x) :
    sys_dup (fd : Int) s =
      ((lowestFree s.fds : Int),
        { s with fds := fdset s.fds (lowestFree s.fds) (some x),
                 trace := s.trace ++ [.dup fd (lowestFree s.fds)] }) ∧
    2 ≤ lowestFree s.fds := by
  refine ⟨?_, two_le_lowestFree s.fds h0 h1⟩
  simp [sys_dup, isOpen, hx]

/-- C5, as the code has it: for a single-stage built-in with default `in` and
`out` bindings, any combination of `in_file` and `out_file`, run in a process
whose descriptors 0 and 1 are open, with a dispatcher that leaves the
descriptor table alone: both `dup` calls succeed; after the branch every
descriptor refers to what it referred to before (the table is the same, so
the two saved duplicates are closed again); a stream is restored from its
saved duplicate exactly when a file redirection was requested for it; and
both saved duplicates are closed by a successful `close`. -/
theorem builtin_restores_streams (w : World) (idx : Int) (temp : cmd_node) (s : Proc)
    (hin : temp.in_ = 0) (hout : temp.out = 1)
    (h0 : fdget s.fds 0 ≠ none) (h1 : fdget s.fds 1 ≠ none)
    (hb : ∀ t, (w.execBuiltInCommand idx temp t).2 = t) :
    (sys_dup STDIN_FILENO s).1 ≠ -1 ∧
    (sys_dup STDOUT_FILENO (sys_dup STDIN_FILENO s).2).1 ≠ -1 ∧
    sameTable (run_builtin w idx temp s).2.fds s.fds ∧
    ∃ evs, (run_builtin w idx temp s).2.trace = s.trace ++ evs ∧
      (temp.in_file.isSome → Event.dup2 (sys_dup STDIN_FILENO s).1 0 0 ∈ evs) ∧
      (temp.in_file = none → ∀ n x, Event.dup2 (sys_dup STDIN_FILENO s).1 n x ∉ evs) ∧
      (temp.out_file.isSome →
        Event.dup2 (sys_dup STDOUT_FILENO (sys_dup STDIN_FILENO s).2).1 1 1 ∈ evs) ∧
      (temp.out_file = none →
        ∀ n x, Event.dup2 (sys_dup STDOUT_FILENO (sys_dup STDIN_FILENO s).2).1 n x ∉ evs) ∧
      Event.close (sys_dup STDIN_FILENO s).1 0 ∈ evs ∧
      Event.close (sys_dup STDOUT_FILENO (sys_dup STDIN_FILENO s).2).1 0 ∈ evs := by
  obtain ⟨x0, hx0⟩ := Option.ne_none_iff_exists'.1 h0
  obtain ⟨x1, hx1⟩ := Option.ne_none_iff_exists'.1 h1
  obtain ⟨e1, hA⟩ := sys_dup_open 0 s x0 h0 h1 hx0
  generalize hAdef : lowestFree s.fds = A at e1 hA
  have hfreeA : fdget s.fds A = none := hAdef ▸ fdget_lowestFree s.fds
  -- the state after the first `dup`
  generalize hS1 : ({ s with fds := fdset s.fds A (some x0),
                             trace := s.trace ++ [.dup (0 : Nat) A] } : Proc) = S1 at e1
  have g1 : ∀ fd, fdget S1.fds fd = if fd = A then some x0 else fdget s.fds fd := by
    intro fd; rw [← hS1]; simp [fdget_fdset]
  have t1 : S1.trace = s.trace ++ [.dup 0 A] := by rw [← hS1]; rfl
  have s10 : fdget S1.fds 0 ≠ none := by rw [g1, if_neg (by omega)]; exact h0
  have s11 : fdget S1.fds 1 ≠ none := by rw [g1, if_neg (by omega)]; exact h1
  have s1x : fdget S1.fds 1 = some x1 := by rw [g1, if_neg (by omega)]; exact hx1
  obtain ⟨e2, hB⟩ := sys_dup_open 1 S1 x1 s10 s11 s1x
  generalize hBdef : lowestFree S1.fds = B at e2 hB
  have hfreeB1 : fdget S1.fds B = none := hBdef ▸ fdget_lowestFree S1.fds
  have hBA : B ≠ A := by
    intro e
    rw [g1, if_pos e] at hfreeB1
    exact Option.noConfusion hfreeB1
  have hfreeB : fdget s.fds B = none := by
    rw [g1, if_neg hBA] at hfreeB1; exact hfreeB1
  generalize hS2 : ({ S1 with fds := fdset S1.fds B (some x1),
                              trace := S1.trace ++ [.dup (1 : Nat) B] } : Proc) = S2 at e2
  have g2 : ∀ fd, fdget S2.fds fd =
      if fd = B then some x1 else if fd = A then some x0 else fdget s.fds fd := by
    intro fd; rw [← hS2]; simp [fdget_fdset, g1]
  have t2 : S2.trace = s.trace ++ [.dup 0 A, .dup 1 B] := by rw [← hS2, t1]; simp
  have s20 : fdget S2.fds 0 ≠ none := by
    rw [g2, if_neg (by omega), if_neg (by omega)]; exact h0
  have s21 : fdget S2.fds 1 ≠ none := by
    rw [g2, if_neg (by omega), if_neg (by omega)]; exact h1
  have e1' : sys_dup STDIN_FILENO s = ((A : Int), S1) := e1
  have e2' : sys_dup STDOUT_FILENO S1 = ((B : Int), S2) := e2
  have hAne : ¬ ((A : Int) = -1) := by omega
  have hBne : ¬ ((B : Int) = -1) := by omega
  have hentry : builtin_entry w temp s = redirection w temp S2 := by
    unfold builtin_entry
    rw [e1']; dsimp only; rw [e2']; dsimp only
    rw [if_neg (by simp [hAne, hBne])]
  rw [run_builtin_eq, hentry, e1']
  dsimp only
  rw [e2']
  dsimp only
  obtain ⟨⟨rg, r0, r1, qe, rt, rq, rd, rc⟩, rin, rout⟩ :=
    redirection_default w temp S2 hin hout s20 s21
  generalize hR : redirection w temp S2 = R at *
  -- the dispatcher
  have hE : (execBuiltInCommand w idx temp R).2.fds = R.fds := by
    simp [execBuiltInCommand, hb]
  have hEt : (execBuiltInCommand w idx temp R).2.trace =
      R.trace ++ [.builtin idx (w.execBuiltInCommand idx temp R.fds).1] := rfl
  generalize execBuiltInCommand w idx temp R = E at *
  have gEA : fdget E.2.fds A = some x0 := by
    rw [hE, rg A hA, g2, if_neg (fun e => hBA e.symm), if_pos rfl]
  have gEB : fdget E.2.fds B = some x1 := by
    rw [hE, rg B hB, g2, if_pos rfl]
  obtain ⟨fin, ftr⟩ := restoreStreams_spec temp A B E.2 x0 x1 hA hB (fun e => hBA e.symm) gEA gEB
  refine ⟨by omega, by omega, ?_, ?_⟩
  · intro fd
    rw [fin fd]
    by_cases ha : fd = A
    · simp [ha, hfreeA]
    · by_cases hb2 : fd = B
      · simp [hb2, hfreeB]
      · simp only [ha, hb2, or_self, if_false]
        by_cases h0fd : fd = 0
        · subst h0fd
          cases hi : temp.in_file with
          | none => simp [hE, rin hi, g2, hx0]; omega
          | some p => simp [hx0]
        · by_cases h1fd : fd = 1
          · subst h1fd
            cases ho : temp.out_file with
            | none => simp [hE, rout ho, g2, hx1]; omega
            | some p => simp [hx1]
          · simp only [h0fd, h1fd, false_and, if_false]
            rw [hE, rg fd (by omega), g2, if_neg hb2, if_neg ha]
  · have oA : isOpen S2.fds (A : Int) = true := by
      rw [isOpen_natCast, g2, if_neg (fun e => hBA e.symm), if_pos rfl]; rfl
    have oB : isOpen S2.fds (B : Int) = true := by
      rw [isOpen_natCast, g2, if_pos rfl]; rfl
    refine ⟨[.dup 0 A, .dup 1 B] ++ qe ++ [.builtin idx (w.execBuiltInCommand idx temp R.fds).1] ++
      ((if temp.in_file.isSome then [Event.dup2 A 0 0] else []) ++
        ((if temp.out_file.isSome then [Event.dup2 B 1 1] else []) ++
          [Event.close A 0, Event.close B 0])), ?_, ?_, ?_, ?_, ?_, ?_, ?_⟩
    · rw [ftr, hEt, rt, t2]; simp
    · intro hi; simp [hi]
    · intro hi n x hmem
      simp only [hi, Option.isSome_none, Bool.false_eq_true, if_false, List.mem_append,
        List.mem_cons, List.mem_singleton, List.mem_nil_iff, or_false, false_or,
        reduceCtorEq] at hmem
      rcases hmem with hq | hq
      · have := rd _ _ _ hq
        rw [oA] at this; exact Bool.noConfusion this
      · split at hq
        · simp only [List.mem_singleton, Event.dup2.injEq] at hq
          have : A = B := by omega
          exact hBA this.symm
        · simp at hq
    · intro ho; simp [ho]
    · intro ho n x hmem
      simp only [ho, Option.isSome_none, Bool.false_eq_true, if_false, List.mem_append,
        List.mem_cons, List.mem_singleton, List.mem_nil_iff, or_false, false_or,
        reduceCtorEq] at hmem
      rcases hmem with hq | hq
      · have := rd _ _ _ hq
        rw [oB] at this; exact Bool.noConfusion this
      · split at hq
        · simp only [List.mem_singleton, Event.dup2.injEq] at hq
          have : A = B := by omega
          exact hBA this.symm
        · simp at hq
    · simp
    · simp

theorem builtin_restores_streams_witness :
    sameTable (run_builtin worldParent 0 { stageOf ["pwd"] with out_file := some "out.txt" }
      proc0).2.fds proc0.fds :=
  (builtin_restores_streams worldParent 0 { stageOf ["pwd"] with out_file := some "out.txt" } proc0
    rfl rfl (by decide) (by decide) (fun _ => rfl)).2.2.1

/-- C5 as stated fails: in a process whose descriptor 1 is closed, `dup(0)`
returns 1, so both `dup` calls succeed, the output redirection overwrites the
saved copy of standard input, and "restoring" standard input from it leaves
descriptor 0 on `out.txt` instead of the terminal. -/
theorem builtin_restore_counterexample :
    (sys_dup STDIN_FILENO procNoStdout).1 = 1 ∧
    (sys_dup STDOUT_FILENO (sys_dup STDIN_FILENO procNoStdout).2).1 = 3 ∧
    (∀ t, (worldParent.execBuiltInCommand 0
      { stageOf ["pwd"] with in_file := some "in.txt", out_file := some "out.txt" } t).2 = t) ∧
    fdget procNoStdout.fds 0 = some (.inherited 0) ∧
    fdget (run_builtin worldParent 0
      { stageOf ["pwd"] with in_file := some "in.txt", out_file := some "out.txt" }
      procNoStdout).2.fds 0 = some (.file "out.txt" O_WRONLY_CREAT_TRUNC MODE_0644) :=
  ⟨by decide, by decide, fun _ => rfl, by decide, by decide⟩

/-- C8 fails on the code. When `fork` fails for the first stage of a
two-stage pipeline, `fork_cmd_node` returns `-1` without a single `close`
call, leaving both ends of the pipe it created open in the shell. When the
second `pipe` call of a three-stage pipeline fails, it returns `-1` with the
read end of the first pipe still open and never closed. And in `redirection`,
when `open` fails, `close` is called on `-1`, which was never opened. -/
theorem pipe_ends_leak_on_failure :
    (fork_cmd_node worldForkFails [stageOf ["ls"], stageOf ["wc"]] proc0).1 = .ret (-1) ∧
    (fork_cmd_node worldForkFails [stageOf ["ls"], stageOf ["wc"]] proc0).2.trace =
      [.pipe 0 3 4, .fork (-1) { stageOf ["ls"] with out := 4 }
          [tty, tty, tty, some (.pipeRd 0), some (.pipeWr 0)],
       .perror "fork"] ∧
    closeCalls (fork_cmd_node worldForkFails [stageOf ["ls"], stageOf ["wc"]] proc0).2.trace
      = [] ∧
    fdget (fork_cmd_node worldForkFails [stageOf ["ls"], stageOf ["wc"]] proc0).2.fds 3
      = some (.pipeRd 0) ∧
    fdget (fork_cmd_node worldForkFails [stageOf ["ls"], stageOf ["wc"]] proc0).2.fds 4
      = some (.pipeWr 0) ∧
    (fork_cmd_node worldSecondPipeFails cmd3 proc0).1 = .ret (-1) ∧
    pipeEvents (fork_cmd_node worldSecondPipeFails cmd3 proc0).2.trace
      = [(0, 3, 4), (-1, 0, 0)] ∧
    closeCalls (fork_cmd_node worldSecondPipeFails cmd3 proc0).2.trace = [4] ∧
    fdget (fork_cmd_node worldSecondPipeFails cmd3 proc0).2.fds 3 = some (.pipeRd 0) ∧
    (redirection worldNoOpen { stageOf ["cat"] with in_file := some "missing" } proc0).trace =
      [.open_ "missing" O_RDONLY 0 (-1), .perror "open in_file", .dup2 (-1) 0 (-1),
       .perror "dup2 in_file", .close (-1) (-1)] := by
  decide

/-! ## The parent's pass through the stage loop when `pipe` and `fork` succeed -/

theorem sys_pipe_ok (w : World) (s : Proc) (hok : w.pipeOk s.npipe = true) :
    sys_pipe w s = ((0, (pipeRdFd s : Int), (pipeWrFd s : Int)), afterPipe s) := by
  simp [sys_pipe, hok, afterPipe, pipeRdFd, pipeWrFd]

theorem pipeWrFd_ne_pipeRdFd (s : Proc) : pipeWrFd s ≠ pipeRdFd s := by
  unfold pipeWrFd pipeRdFd
  apply lowestFree_ne_of_open
  simp [fdget_fdset]

theorem fdget_afterPipe (s : Proc) (fd : Nat) :
    fdget (afterPipe s).fds fd =
      if fd = pipeWrFd s then some (.pipeWr s.npipe)
      else if fd = pipeRdFd s then some (.pipeRd s.npipe) else fdget s.fds fd := by
  simp [afterPipe, fdget_fdset, pipeWrFd, pipeRdFd]

theorem pipeRdFd_free (s : Proc) : fdget s.fds (pipeRdFd s) = none := fdget_lowestFree s.fds

theorem pipeWrFd_free (s : Proc) : fdget s.fds (pipeWrFd s) = none := by
  have h := fdget_lowestFree (fdset s.fds (lowestFree s.fds) (some (.pipeRd s.npipe)))
  rw [fdget_fdset] at h
  split at h
  · exact Option.noConfusion h
  · exact h

/-- After `close(k)`, successful or not, descriptor `k` is closed and no
other descriptor changed. -/
theorem fdget_sys_close (k : Nat) (s : Proc) (fd : Nat) :
    fdget (sys_close (k : Int) s).2.fds fd = if fd = k then none else fdget s.fds fd := by
  unfold sys_close
  by_cases ho : isOpen s.fds (k : Int) = true
  · simp [ho, fdget_fdset]
  · simp only [ho, Bool.false_eq_true, if_false, Proc.log]
    split
    · rename_i h; subst h
      rw [isOpen_natCast] at ho
      cases hx : fdget s.fds fd with
      | none => rfl
      | some d => simp [hx] at ho
    · rfl

/-- The parent's table after the two guarded `close` calls. -/
theorem fdget_stageParent (node : cmd_node) (o p : Nat) (s : Proc) (fd : Nat)
    (ho : node.out = (o : Int)) :
    fdget (stageParent node (p : Int) s).fds fd =
      if (fd = p ∧ p ≠ 0) ∨ (fd = o ∧ o ≠ 1) then none else fdget s.fds fd := by
  unfold stageParent
  rw [ho]
  have e1 : ((o : Int) ≠ STDOUT_FILENO) = (o ≠ 1) := by
    simp only [STDOUT_FILENO, ne_eq, eq_iff_iff]; omega
  have e0 : ((p : Int) ≠ STDIN_FILENO) = (p ≠ 0) := by
    simp only [STDIN_FILENO, ne_eq, eq_iff_iff]; omega
  simp only [e1, e0]
  by_cases h1 : o = 1 <;> by_cases h0 : p = 0 <;> simp [h1, h0, fdget_sys_close]
  all_goals (by_cases a : fd = p <;> by_cases b : fd = o <;> simp_all)

theorem stage_loop_parent_last (w : World) (node : cmd_node) (p : Nat) (pipefd : Int × Int)
    (cnt : Nat) (s : Proc) (hfork : 0 < w.forkRet s.nfork) :
    stage_loop w [node] (p : Int) pipefd cnt s =
      (none, cnt + 1,
        stageParent { node with in_ := (p : Int), out := STDOUT_FILENO } (p : Int)
          (sys_fork w { node with in_ := (p : Int), out := STDOUT_FILENO } s).2) := by
  rw [stage_loop_cons]
  have h1 : ¬ w.forkRet s.nfork < 0 := by omega
  have h2 : ¬ w.forkRet s.nfork = 0 := by omega
  simp [stagePipe, stageWired, sys_fork, h1, h2, stage_loop]

theorem stage_loop_parent_next (w : World) (node n2 : cmd_node) (rest : List cmd_node) (p : Nat)
    (pipefd : Int × Int) (cnt : Nat) (s : Proc) (hok : w.pipeOk s.npipe = true)
    (hfork : 0 < w.forkRet s.nfork) :
    stage_loop w (node :: n2 :: rest) (p : Int) pipefd cnt s =
      stage_loop w (n2 :: rest) (pipeRdFd s : Int) ((pipeRdFd s : Int), (pipeWrFd s : Int))
        (cnt + 1)
        (stageParent { node with in_ := (p : Int), out := (pipeWrFd s : Int) } (p : Int)
          (sys_fork w { node with in_ := (p : Int), out := (pipeWrFd s : Int) }
            (afterPipe s)).2) := by
  rw [stage_loop_cons]
  have hn : (afterPipe s).nfork = s.nfork := rfl
  have h1 : ¬ w.forkRet s.nfork < 0 := by omega
  have h2 : ¬ w.forkRet s.nfork = 0 := by omega
  simp [stagePipe, stageWired, sys_fork, sys_pipe_ok w s hok, hn, h1, h2]
theorem sys_fork_trace (w : World) (node : cmd_node) (s : Proc) :
    (sys_fork w node s).2.trace = s.trace ++ [.fork (w.forkRet s.nfork) node s.fds] := rfl

theorem sys_fork_fds (w : World) (node : cmd_node) (s : Proc) :
    (sys_fork w node s).2.fds = s.fds := rfl

theorem afterPipe_trace (s : Proc) :
    (afterPipe s).trace = s.trace ++ [.pipe 0 (pipeRdFd s) (pipeWrFd s)] := rfl

/-- The wiring of the stages, pass by pass, when every `pipe` and `fork`
call succeeds in the parent. -/
theorem stage_loop_wiring (w : World) (hp : ∀ k, w.pipeOk k = true)
    (hf : ∀ k, 0 < w.forkRet k) :
    ∀ (nodes : List cmd_node) (p : Nat) (pipefd : Int × Int) (cnt : Nat) (s : Proc),
      nodes ≠ [] → (p = 0 ∨ fdget s.fds p ≠ none) →
      ∃ evs, (stage_loop w nodes (p : Int) pipefd cnt s).2.2.trace = s.trace ++ evs ∧
        (stage_loop w nodes (p : Int) pipefd cnt s).1 = none ∧
        (stage_loop w nodes (p : Int) pipefd cnt s).2.1 = cnt + nodes.length ∧
        (forkEvents evs).length = nodes.length ∧
        (pipeEvents evs).length + 1 = nodes.length ∧
        (∀ (i : Nat) (e : Int × cmd_node × FdTable), (forkEvents evs)[i]? = some e →
          ∃ n : cmd_node, nodes[i]? = some n ∧
          e.2.1.args = n.args ∧ e.2.1.in_file = n.in_file ∧ e.2.1.out_file = n.out_file) ∧
        (∀ e, (forkEvents evs)[0]? = some e →
          e.2.1.in_ = (p : Int) ∧ ∀ d, fdget s.fds p = some d → fdget e.2.2 p = some d) ∧
        (∀ e, (forkEvents evs)[nodes.length - 1]? = some e → e.2.1.out = 1) ∧
        (∀ (i : Nat) e e' q, (forkEvents evs)[i]? = some e → (forkEvents evs)[i + 1]? = some e' →
          (pipeEvents evs)[i]? = some q →
          ∃ r wr : Nat, q = (0, (r : Int), (wr : Int)) ∧ e.2.1.out = (wr : Int) ∧
            e'.2.1.in_ = (r : Int) ∧
            fdget e.2.2 wr = some (.pipeWr (s.npipe + i)) ∧
            fdget e.2.2 r = some (.pipeRd (s.npipe + i)) ∧
            fdget e'.2.2 r = some (.pipeRd (s.npipe + i))) := by
  intro nodes
  induction nodes with
  | nil => intro _ _ _ _ h; exact absurd rfl h
  | cons node rest ih =>
    intro p pipefd cnt s _ hprev
    cases rest with
    | nil =>
      rw [stage_loop_parent_last w node p pipefd cnt s (hf _)]
      obtain ⟨_, _, _, qe, hqe, hqq⟩ := stageParent_quiet
        { node with in_ := (p : Int), out := STDOUT_FILENO } (p : Int)
        (sys_fork w { node with in_ := (p : Int), out := STDOUT_FILENO } s).2
      refine ⟨[.fork (w.forkRet s.nfork) { node with in_ := (p : Int), out := STDOUT_FILENO } s.fds]
        ++ qe, ?_, rfl, rfl, ?_, ?_, ?_, ?_, ?_, ?_⟩
      · rw [hqe, sys_fork_trace]; simp
      · simp [forkEvents_append, forkEvents, forkEvents_quiet qe hqq]
      · simp [pipeEvents_append, pipeEvents, pipeEvents_quiet qe hqq]
      · intro i e he
        simp only [forkEvents_append, forkEvents, forkEvents_quiet qe hqq, List.append_nil] at he
        cases i with
        | zero =>
          simp only [List.getElem?_cons_zero, Option.some.injEq] at he
          subst he
          exact ⟨node, rfl, rfl, rfl, rfl⟩
        | succ i => simp [forkEvents_quiet qe hqq] at he
      · intro e he
        simp only [forkEvents_append, forkEvents, forkEvents_quiet qe hqq, List.append_nil,
          List.getElem?_cons_zero, Option.some.injEq] at he
        subst he
        exact ⟨rfl, fun d hd => hd⟩
      · intro e he
        simp only [forkEvents_append, forkEvents, forkEvents_quiet qe hqq, List.append_nil,
          List.length_singleton, Nat.sub_self, List.getElem?_cons_zero, Option.some.injEq] at he
        subst he
        rfl
      · intro i e e' q _ he'
        simp [forkEvents_append, forkEvents, forkEvents_quiet qe hqq] at he'
    | cons n2 rest =>
      rw [stage_loop_parent_next w node n2 rest p pipefd cnt s (hp _) (hf _)]
      have hwr := pipeWrFd_ne_pipeRdFd s
      have hrfree := pipeRdFd_free s
      have hwfree := pipeWrFd_free s
      generalize hN : ({ node with in_ := (p : Int), out := (pipeWrFd s : Int) } : cmd_node) = N
      have hNout : N.out = (pipeWrFd s : Int) := by rw [← hN]
      obtain ⟨_, _, _, qe, hqe, hqq⟩ := stageParent_quiet N (p : Int) (sys_fork w N (afterPipe s)).2
      have hSfds := fun fd => fdget_stageParent N (pipeWrFd s) p (sys_fork w N (afterPipe s)).2 fd hNout
      have hSnp : (stageParent N (p : Int) (sys_fork w N (afterPipe s)).2).npipe = s.npipe + 1 := by
        obtain ⟨h, _⟩ := stageParent_quiet N (p : Int) (sys_fork w N (afterPipe s)).2
        rw [h]; rfl
      generalize stageParent N (p : Int) (sys_fork w N (afterPipe s)).2 = S at *
      -- the read end stays open in the parent for the next pass
      have hpr : p ≠ 0 → pipeRdFd s ≠ p := by
        intro hp0 e
        rcases hprev with h | h
        · exact hp0 h
        · rw [← e] at h; exact h hrfree
      have hSr : fdget S.fds (pipeRdFd s) = some (.pipeRd s.npipe) := by
        rw [hSfds, sys_fork_fds, fdget_afterPipe]
        have c1 : ¬ ((pipeRdFd s = p ∧ p ≠ 0) ∨ (pipeRdFd s = pipeWrFd s ∧ pipeWrFd s ≠ 1)) := by
          rintro (⟨a, b⟩ | ⟨a, _⟩)
          · exact hpr b a
          · exact hwr a.symm
        rw [if_neg c1, if_neg (fun e => hwr e.symm), if_pos rfl]
      obtain ⟨evs, ht, ho, hc, hfl, hpl, hid, hfirst, hlast, hchain⟩ :=
        ih (pipeRdFd s) ((pipeRdFd s : Int), (pipeWrFd s : Int)) (cnt + 1) S (by simp)
          (Or.inr (by rw [hSr]; simp))
      have hfe : forkEvents ([Event.pipe 0 (pipeRdFd s) (pipeWrFd s),
          Event.fork (w.forkRet s.nfork) N (afterPipe s).fds] ++ qe ++ evs) =
          (w.forkRet s.nfork, N, (afterPipe s).fds) :: forkEvents evs := by
        simp [forkEvents_append, forkEvents, forkEvents_quiet qe hqq]
      have hpe : pipeEvents ([Event.pipe 0 (pipeRdFd s) (pipeWrFd s),
          Event.fork (w.forkRet s.nfork) N (afterPipe s).fds] ++ qe ++ evs) =
          (0, (pipeRdFd s : Int), (pipeWrFd s : Int)) :: pipeEvents evs := by
        simp [pipeEvents_append, pipeEvents, pipeEvents_quiet qe hqq]
      refine ⟨[.pipe 0 (pipeRdFd s) (pipeWrFd s),
        .fork (w.forkRet s.nfork) N (afterPipe s).fds] ++ qe ++ evs, ?_, ho, ?_, ?_, ?_, ?_, ?_, ?_, ?_⟩
      · rw [ht, hqe, sys_fork_trace, afterPipe_trace]
        have : (afterPipe s).nfork = s.nfork := rfl
        rw [this]; simp
      · rw [hc]; simp only [List.length_cons]; omega
      · rw [hfe]; simp [hfl]
      · rw [hpe]; simp only [List.length_cons] at hpl ⊢; omega
      · intro i e he
        rw [hfe] at he
        cases i with
        | zero =>
          simp only [List.getElem?_cons_zero, Option.some.injEq] at he
          subst he
          refine ⟨node, rfl, ?_, ?_, ?_⟩ <;> rw [← hN]
        | succ i =>
          simp only [List.getElem?_cons_succ] at he ⊢
          exact hid i e he
      · intro e he
        rw [hfe] at he
        simp only [List.getElem?_cons_zero, Option.some.injEq] at he
        subst he
        refine ⟨by rw [← hN], ?_⟩
        intro d hd
        have hne : fdget s.fds p ≠ none := by rw [hd]; simp
        have a1 : p ≠ pipeWrFd s := fun e => hne (e ▸ hwfree)
        have a2 : p ≠ pipeRdFd s := fun e => hne (e ▸ hrfree)
        show fdget (afterPipe s).fds p = some d
        rw [fdget_afterPipe, if_neg a1, if_neg a2, hd]
      · intro e he
        rw [hfe] at he
        have : (node :: n2 :: rest).length - 1 = (n2 :: rest).length - 1 + 1 := by simp
        rw [this, List.getElem?_cons_succ] at he
        exact hlast e he
      · intro i e e' q he he' hq
        rw [hfe] at he he'
        rw [hpe] at hq
        cases i with
        | zero =>
          simp only [List.getElem?_cons_zero, Option.some.injEq, zero_add,
            List.getElem?_cons_succ] at he he' hq
          subst he hq
          obtain ⟨hin, hsnap⟩ := hfirst e' he'
          refine ⟨pipeRdFd s, pipeWrFd s, rfl, hNout, hin, ?_, ?_, ?_⟩
          · show fdget (afterPipe s).fds (pipeWrFd s) = _
            rw [fdget_afterPipe, if_pos rfl]; rfl
          · show fdget (afterPipe s).fds (pipeRdFd s) = _
            rw [fdget_afterPipe, if_neg (fun e => hwr e.symm), if_pos rfl]; rfl
          · simpa using hsnap _ hSr
        | succ i =>
          simp only [List.getElem?_cons_succ] at he he' hq
          obtain ⟨r, wr, h1, h2, h3, h4, h5, h6⟩ := hchain i e e' q he he' hq
          refine ⟨r, wr, h1, h2, h3, ?_, ?_, ?_⟩
          · rw [h4, hSnp]; congr 2; omega
          · rw [h5, hSnp]; congr 2; omega
          · rw [h6, hSnp]; congr 2; omega

/-- The wait loop appends only `wait` calls and reports. -/
theorem wait_loop_events (w : World) :
    ∀ (n : Nat) (status : Int) (s : Proc),
      (wait_loop w n status s).2.2.fds = s.fds ∧
      ∃ evs, (wait_loop w n status s).2.2.trace = s.trace ++ evs ∧ forkEvents evs = [] ∧
        pipeEvents evs = [] ∧ closeCalls evs = [] ∧ waitCount evs ≤ n ∧
        ((∀ k, (w.waitRet k).1 ≠ -1) → waitCount evs = n) := by
  intro n
  induction n with
  | zero => intro _ s; exact ⟨rfl, [], by simp [wait_loop], rfl, rfl, rfl, le_refl _, fun _ => rfl⟩
  | succ n ih =>
    intro status s
    unfold wait_loop
    dsimp only
    by_cases hr : (sys_wait w s).1.1 = -1
    · rw [if_pos hr]
      refine ⟨rfl, [.wait (w.waitRet s.nwait).1, .perror "wait"], ?_, rfl, rfl, rfl, ?_, ?_⟩
      · simp [perror, Proc.log, sys_wait]
      · simp [waitCount]
      · intro hk
        exact absurd hr (hk _)
    · rw [if_neg hr]
      obtain ⟨hfd, evs, ht, h1, h2, h3, h4, h5⟩ := ih (sys_wait w s).1.2 (sys_wait w s).2
      refine ⟨hfd, [.wait (w.waitRet s.nwait).1] ++ evs, ?_, ?_, ?_, ?_, ?_, ?_⟩
      · rw [ht]; simp [sys_wait]
      · rw [forkEvents_append, h1]; rfl
      · rw [pipeEvents_append, h2]; rfl
      · rw [closeCalls_append, h3]; rfl
      · rw [waitCount_append]; simp only [waitCount]; omega
      · intro hk
        rw [waitCount_append, h5 hk]; simp only [waitCount]; omega

/-- When the stage loop runs to its end, `fork_cmd_node` goes on with exactly
`child_cnt` rounds of the wait loop at most and touches no descriptor. -/
theorem fork_cmd_node_after_loop (w : World) (cmd : List cmd_node) (s : Proc)
    (h : (stage_loop w cmd STDIN_FILENO (0, 0) 0 s).1 = none) :
    (fork_cmd_node w cmd s).2.fds = (stage_loop w cmd STDIN_FILENO (0, 0) 0 s).2.2.fds ∧
    ∃ evs, (fork_cmd_node w cmd s).2.trace =
        (stage_loop w cmd STDIN_FILENO (0, 0) 0 s).2.2.trace ++ evs ∧
      forkEvents evs = [] ∧ pipeEvents evs = [] ∧ closeCalls evs = [] ∧
      ((∀ k, (w.waitRet k).1 ≠ -1) →
        waitCount evs = (stage_loop w cmd STDIN_FILENO (0, 0) 0 s).2.1) := by
  rw [fork_cmd_node_state_of_loop_none w cmd s h]
  obtain ⟨hfd, evs, ht, h1, h2, h3, _, h5⟩ :=
    wait_loop_events w (stage_loop w cmd STDIN_FILENO (0, 0) 0 s).2.1 0
      (stage_loop w cmd STDIN_FILENO (0, 0) 0 s).2.2
  exact ⟨hfd, evs, ht, h1, h2, h3, h5⟩

/-- The wiring of the stages over the whole run of `fork_cmd_node`. -/
theorem fork_cmd_node_wiring (w : World) (cmd : List cmd_node) (s : Proc)
    (hN : 2 ≤ cmd.length) (hp : ∀ k, w.pipeOk k = true) (hf : ∀ k, 0 < w.forkRet k) :
    ∃ evs, (fork_cmd_node w cmd s).2.trace = s.trace ++ evs ∧
      (forkEvents evs).length = cmd.length ∧
      (pipeEvents evs).length + 1 = cmd.length ∧
      (∀ (i : Nat) (e : Int × cmd_node × FdTable), (forkEvents evs)[i]? = some e →
        ∃ n : cmd_node, cmd[i]? = some n ∧
          e.2.1.args = n.args ∧ e.2.1.in_file = n.in_file ∧ e.2.1.out_file = n.out_file) ∧
      (∀ e, (forkEvents evs)[0]? = some e → e.2.1.in_ = STDIN_FILENO) ∧
      (∀ e, (forkEvents evs)[cmd.length - 1]? = some e → e.2.1.out = STDOUT_FILENO) ∧
      (∀ (i : Nat) e e' q, (forkEvents evs)[i]? = some e → (forkEvents evs)[i + 1]? = some e' →
        (pipeEvents evs)[i]? = some q →
        ∃ r wr : Nat, q = (0, (r : Int), (wr : Int)) ∧ e.2.1.out = (wr : Int) ∧
          e'.2.1.in_ = (r : Int) ∧
          fdget e.2.2 wr = some (.pipeWr (s.npipe + i)) ∧
          fdget e.2.2 r = some (.pipeRd (s.npipe + i)) ∧
          fdget e'.2.2 r = some (.pipeRd (s.npipe + i))) := by
  have hne : cmd ≠ [] := by
    intro e; rw [e] at hN; simp at hN
  obtain ⟨evs, ht, ho, _, hfl, hpl, hid, hfirst, hlast, hchain⟩ :=
    stage_loop_wiring w hp hf cmd 0 (0, 0) 0 s hne (Or.inl rfl)
  have hz : ((0 : Nat) : Int) = STDIN_FILENO := rfl
  rw [hz] at ht ho hfirst
  obtain ⟨_, wevs, hwt, hwf, hwp, _, _⟩ := fork_cmd_node_after_loop w cmd s ho
  refine ⟨evs ++ wevs, ?_, ?_, ?_, ?_, ?_, ?_, ?_⟩
  · rw [hwt, ht, List.append_assoc]
  · rw [forkEvents_append, hwf, List.append_nil]; exact hfl
  · rw [pipeEvents_append, hwp, List.append_nil]; exact hpl
  · rw [forkEvents_append, hwf, List.append_nil]; exact hid
  · rw [forkEvents_append, hwf, List.append_nil]
    intro e he; exact (hfirst e he).1
  · rw [forkEvents_append, hwf, List.append_nil]; exact hlast
  · rw [forkEvents_append, hwf, pipeEvents_append, hwp, List.append_nil, List.append_nil]
    exact hchain

/-- C2: in a pipeline of at least two stages on which every `pipe` and `fork`
call succeeds, `fork_cmd_node` makes one `fork` call per stage, in order, and
one `pipe` call per stage but the last. At the `fork` of each stage the stage
is wired as a chain: stage 0 has `in = 0`, the last stage has `out = 1`, and
for each stage `i` but the last, `out` of stage `i` is the write descriptor
returned by the `i`-th `pipe` call and `in` of stage `i + 1` is its read
descriptor, and in the table at the respective `fork` those descriptors refer
to the write end and the read end of that same pipe. -/
theorem stages_wired_as_chain (w : World) (cmd : List cmd_node) (s : Proc)
    (hN : 2 ≤ cmd.length) (hp : ∀ k, w.pipeOk k = true) (hf : ∀ k, 0 < w.forkRet k) :
    ∃ evs, (fork_cmd_node w cmd s).2.trace = s.trace ++ evs ∧
      (forkEvents evs).length = cmd.length ∧
      (pipeEvents evs).length + 1 = cmd.length ∧
      (∀ (i : Nat) (e : Int × cmd_node × FdTable), (forkEvents evs)[i]? = some e →
        ∃ n : cmd_node, cmd[i]? = some n ∧
          e.2.1.args = n.args ∧ e.2.1.in_file = n.in_file ∧ e.2.1.out_file = n.out_file) ∧
      (∀ e, (forkEvents evs)[0]? = some e → e.2.1.in_ = STDIN_FILENO) ∧
      (∀ e, (forkEvents evs)[cmd.length - 1]? = some e → e.2.1.out = STDOUT_FILENO) ∧
      (∀ (i : Nat) e e' q, (forkEvents evs)[i]? = some e → (forkEvents evs)[i + 1]? = some e' →
        (pipeEvents evs)[i]? = some q →
        ∃ r wr : Nat, q = (0, (r : Int), (wr : Int)) ∧ e.2.1.out = (wr : Int) ∧
          e'.2.1.in_ = (r : Int) ∧
          fdget e.2.2 wr = some (.pipeWr (s.npipe + i)) ∧
          fdget e.2.2 r = some (.pipeRd (s.npipe + i)) ∧
          fdget e'.2.2 r = some (.pipeRd (s.npipe + i))) :=
  fork_cmd_node_wiring w cmd s hN hp hf

theorem stages_wired_as_chain_witness :
    ∃ evs, (fork_cmd_node worldParent [stageOf ["ls"], stageOf ["sort"], stageOf ["wc"]]
        proc0).2.trace = proc0.trace ++ evs ∧
      (forkEvents evs).length = 3 ∧ (pipeEvents evs).length + 1 = 3 :=
  (stages_wired_as_chain worldParent [stageOf ["ls"], stageOf ["sort"], stageOf ["wc"]] proc0
    (by decide) (fun _ => rfl) (fun k => by show (0 : Int) < 100 + (k : Int); omega)).imp
    (fun _ h => ⟨h.1, h.2.1, h.2.2.1⟩)

theorem two_le_pipeRdFd (s : Proc) (h0 : fdget s.fds 0 ≠ none) (h1 : fdget s.fds 1 ≠ none) :
    2 ≤ pipeRdFd s := two_le_lowestFree s.fds h0 h1

theorem two_le_pipeWrFd (s : Proc) (h0 : fdget s.fds 0 ≠ none) (h1 : fdget s.fds 1 ≠ none) :
    2 ≤ pipeWrFd s := by
  have hr := two_le_pipeRdFd s h0 h1
  unfold pipeWrFd
  apply two_le_lowestFree
  · rw [fdget_fdset, if_neg]; exact h0
    show 0 ≠ pipeRdFd s; omega
  · rw [fdget_fdset, if_neg]; exact h1
    show 1 ≠ pipeRdFd s; omega

/-- The parent's run of the stage loop in a process whose descriptors 0 and 1
are open, when every `pipe` and `fork` call succeeds: what it leaves in the
table and what each child inherits. -/
theorem stage_loop_std (w : World) (hp : ∀ k, w.pipeOk k = true) (hf : ∀ k, 0 < w.forkRet k) :
    ∀ (nodes : List cmd_node) (p : Nat) (pipefd : Int × Int) (cnt : Nat) (s : Proc),
      nodes ≠ [] → fdget s.fds 0 ≠ none → fdget s.fds 1 ≠ none →
      (p = 0 ∨ (2 ≤ p ∧ fdget s.fds p ≠ none)) →
      (∀ fd, fdget (stage_loop w nodes (p : Int) pipefd cnt s).2.2.fds fd =
        if fd = p ∧ p ≠ 0 then none else fdget s.fds fd) ∧
      (stage_loop w nodes (p : Int) pipefd cnt s).2.2.nfork = s.nfork + nodes.length ∧
      ∃ evs, (stage_loop w nodes (p : Int) pipefd cnt s).2.2.trace = s.trace ++ evs ∧
        waitCount evs = 0 ∧
        (∀ e ∈ forkEvents evs, 0 < e.1) ∧
        (∀ q ∈ pipeEvents evs, ∃ r wr : Nat, q = (0, (r : Int), (wr : Int)) ∧ 2 ≤ r ∧ 2 ≤ wr ∧
          ((r = p ∧ p ≠ 0) ∨ fdget s.fds r = none) ∧
          ((wr = p ∧ p ≠ 0) ∨ fdget s.fds wr = none)) ∧
        (∀ (j : Nat) (e : Int × cmd_node × FdTable), (forkEvents evs)[j]? = some e →
          ∀ fd d, fdget e.2.2 fd = some d →
            (¬ (fd = p ∧ p ≠ 0) ∧ fdget s.fds fd = some d) ∨
            (j = 0 ∧ p ≠ 0 ∧ fd = p ∧ fdget s.fds p = some d) ∨
            (1 ≤ j ∧ d = .pipeRd (s.npipe + j - 1)) ∨
            (j + 1 < nodes.length ∧ (d = .pipeRd (s.npipe + j) ∨ d = .pipeWr (s.npipe + j)))) := by
  intro nodes
  induction nodes with
  | nil => intro _ _ _ _ h; exact absurd rfl h
  | cons node rest ih =>
    intro p pipefd cnt s _ h0 h1 hprev
    cases rest with
    | nil =>
      rw [stage_loop_parent_last w node p pipefd cnt s (hf _)]
      generalize hN : ({ node with in_ := (p : Int), out := STDOUT_FILENO } : cmd_node) = N
      have hNout : N.out = ((1 : Nat) : Int) := by rw [← hN]; rfl
      obtain ⟨_, hnf, _, qe, hqe, hqq⟩ := stageParent_quiet N (p : Int) (sys_fork w N s).2
      have hSfds := fun fd => fdget_stageParent N 1 p (sys_fork w N s).2 fd hNout
      have hfe1 : forkEvents ([Event.fork (w.forkRet s.nfork) N s.fds] ++ qe) =
          [(w.forkRet s.nfork, N, s.fds)] := by
        simp [forkEvents_append, forkEvents, forkEvents_quiet qe hqq]
      refine ⟨?_, ?_, [.fork (w.forkRet s.nfork) N s.fds] ++ qe, ?_, ?_, ?_, ?_, ?_⟩
      · intro fd
        rw [hSfds fd, sys_fork_fds]
        simp
      · rw [hnf]; rfl
      · rw [hqe, sys_fork_trace]; simp
      · rw [waitCount_append, waitCount_quiet qe hqq]; rfl
      · intro e he
        rw [hfe1, List.mem_singleton] at he
        subst he
        exact hf _
      · intro q hq
        simp [pipeEvents_append, pipeEvents, pipeEvents_quiet qe hqq] at hq
      · intro j e he fd d hd
        rw [hfe1] at he
        cases j with
        | zero =>
          simp only [List.getElem?_cons_zero, Option.some.injEq] at he
          subst he
          by_cases hc : fd = p ∧ p ≠ 0
          · right; left
            exact ⟨rfl, hc.2, hc.1, hc.1 ▸ hd⟩
          · left; exact ⟨hc, hd⟩
        | succ j => simp at he
    | cons n2 rest =>
      rw [stage_loop_parent_next w node n2 rest p pipefd cnt s (hp _) (hf _)]
      have hwr := pipeWrFd_ne_pipeRdFd s
      have hrfree := pipeRdFd_free s
      have hwfree := pipeWrFd_free s
      have hr2 := two_le_pipeRdFd s h0 h1
      have hw2 := two_le_pipeWrFd s h0 h1
      generalize hN : ({ node with in_ := (p : Int), out := (pipeWrFd s : Int) } : cmd_node) = N
      have hNout : N.out = (pipeWrFd s : Int) := by rw [← hN]
      obtain ⟨hnp, hnf, _, qe, hqe, hqq⟩ :=
        stageParent_quiet N (p : Int) (sys_fork w N (afterPipe s)).2
      have hSfds := fun fd => fdget_stageParent N (pipeWrFd s) p (sys_fork w N (afterPipe s)).2 fd hNout
      have hSnp : (stageParent N (p : Int) (sys_fork w N (afterPipe s)).2).npipe = s.npipe + 1 := by
        rw [hnp]; rfl
      have hSnf : (stageParent N (p : Int) (sys_fork w N (afterPipe s)).2).nfork = s.nfork + 1 := by
        rw [hnf]; rfl
      generalize stageParent N (p : Int) (sys_fork w N (afterPipe s)).2 = S at *
      have hpr : p = 0 ∨ (pipeRdFd s ≠ p ∧ pipeWrFd s ≠ p) := by
        rcases hprev with h | ⟨_, h⟩
        · exact Or.inl h
        · exact Or.inr ⟨fun e => h (e ▸ hrfree), fun e => h (e ▸ hwfree)⟩
      -- the parent's table at the head of the next pass
      have hS : ∀ fd, fdget S.fds fd =
          if fd = pipeRdFd s then some (.pipeRd s.npipe)
          else if fd = pipeWrFd s ∨ (fd = p ∧ p ≠ 0) then none else fdget s.fds fd := by
        intro fd
        rw [hSfds, sys_fork_fds, fdget_afterPipe]
        split_ifs <;> first | rfl | (exfalso; omega)
      have hS0 : fdget S.fds 0 ≠ none := by
        rw [hS, if_neg (by omega), if_neg (by omega)]; exact h0
      have hS1 : fdget S.fds 1 ≠ none := by
        rw [hS, if_neg (by omega), if_neg (by omega)]; exact h1
      have hSr : fdget S.fds (pipeRdFd s) = some (.pipeRd s.npipe) := by
        rw [hS, if_pos rfl]
      obtain ⟨hfin, hnfk, evs, ht, hwc, hpos, hpipes, hsnap⟩ :=
        ih (pipeRdFd s) ((pipeRdFd s : Int), (pipeWrFd s : Int)) (cnt + 1) S (by simp) hS0 hS1
          (Or.inr ⟨hr2, by rw [hSr]; simp⟩)
      have hfe : forkEvents ([Event.pipe 0 (pipeRdFd s) (pipeWrFd s),
          Event.fork (w.forkRet s.nfork) N (afterPipe s).fds] ++ qe ++ evs) =
          (w.forkRet s.nfork, N, (afterPipe s).fds) :: forkEvents evs := by
        simp [forkEvents_append, forkEvents, forkEvents_quiet qe hqq]
      have hpe : pipeEvents ([Event.pipe 0 (pipeRdFd s) (pipeWrFd s),
          Event.fork (w.forkRet s.nfork) N (afterPipe s).fds] ++ qe ++ evs) =
          (0, (pipeRdFd s : Int), (pipeWrFd s : Int)) :: pipeEvents evs := by
        simp [pipeEvents_append, pipeEvents, pipeEvents_quiet qe hqq]
      refine ⟨?_, ?_, [.pipe 0 (pipeRdFd s) (pipeWrFd s),
        .fork (w.forkRet s.nfork) N (afterPipe s).fds] ++ qe ++ evs, ?_, ?_, ?_, ?_, ?_⟩
      · intro fd
        rw [hfin fd, hS fd]
        by_cases a : fd = pipeRdFd s
        · have c0 : ¬ (fd = p ∧ p ≠ 0) := by omega
          rw [if_pos ⟨a, by omega⟩, if_neg c0, a, hrfree]
        · rw [if_neg (fun x => a x.1), if_neg a]
          by_cases b : fd = pipeWrFd s
          · have c0 : ¬ (fd = p ∧ p ≠ 0) := by omega
            rw [if_pos (Or.inl b), if_neg c0, b, hwfree]
          · by_cases c : fd = p ∧ p ≠ 0
            · rw [if_pos (Or.inr c), if_pos c]
            · have c2 : ¬ (fd = pipeWrFd s ∨ (fd = p ∧ p ≠ 0)) := by omega
              rw [if_neg c2, if_neg c]
      · rw [hnfk, hSnf]; simp only [List.length_cons]; omega
      · rw [ht, hqe, sys_fork_trace, afterPipe_trace]
        have : (afterPipe s).nfork = s.nfork := rfl
        rw [this]; simp
      · rw [waitCount_append, waitCount_append, hwc, waitCount_quiet qe hqq]; rfl
      · intro e he
        rw [hfe] at he
        rcases List.mem_cons.1 he with h | h
        · rw [h]; exact hf _
        · exact hpos e h
      · intro q hq
        rw [hpe] at hq
        rcases List.mem_cons.1 hq with h | h
        · exact ⟨pipeRdFd s, pipeWrFd s, h, hr2, hw2, Or.inr hrfree, Or.inr hwfree⟩
        · obtain ⟨r, wr, e1, e2, e3, e4, e5⟩ := hpipes q h
          have key : ∀ x : Nat, ((x = pipeRdFd s ∧ pipeRdFd s ≠ 0) ∨ fdget S.fds x = none) →
              ((x = p ∧ p ≠ 0) ∨ fdget s.fds x = none) := by
            intro x hx
            rcases hx with ⟨hx, _⟩ | hx
            · exact Or.inr (hx ▸ hrfree)
            · rw [hS] at hx
              by_cases a : x = pipeRdFd s
              · rw [if_pos a] at hx; exact Option.noConfusion hx
              · rw [if_neg a] at hx
                by_cases b : x = pipeWrFd s
                · exact Or.inr (b ▸ hwfree)
                · by_cases c : x = p ∧ p ≠ 0
                  · exact Or.inl c
                  · have c2 : ¬ (x = pipeWrFd s ∨ (x = p ∧ p ≠ 0)) := by omega
                    rw [if_neg c2] at hx
                    exact Or.inr hx
          exact ⟨r, wr, e1, e2, e3, key r e4, key wr e5⟩
      · intro j e he fd d hd
        rw [hfe] at he
        cases j with
        | zero =>
          simp only [List.getElem?_cons_zero, Option.some.injEq] at he
          subst he
          have hd2 : fdget (afterPipe s).fds fd = some d := hd
          rw [fdget_afterPipe] at hd2
          by_cases b : fd = pipeWrFd s
          · rw [if_pos b] at hd2
            right; right; right
            exact ⟨by simp, Or.inr (by simpa using hd2.symm)⟩
          · rw [if_neg b] at hd2
            by_cases a : fd = pipeRdFd s
            · rw [if_pos a] at hd2
              right; right; right
              exact ⟨by simp, Or.inl (by simpa using hd2.symm)⟩
            · rw [if_neg a] at hd2
              by_cases hc : fd = p ∧ p ≠ 0
              · right; left
                exact ⟨rfl, hc.2, hc.1, hc.1 ▸ hd2⟩
              · left; exact ⟨hc, hd2⟩
        | succ j =>
          simp only [List.getElem?_cons_succ] at he
          rcases hsnap j e he fd d hd with ⟨hne, hv⟩ | ⟨hj, _, hfd, hv⟩ | ⟨hj, hv⟩ | ⟨hj, hv⟩
          · have a : fd ≠ pipeRdFd s := fun x => hne ⟨x, by omega⟩
            rw [hS, if_neg a] at hv
            by_cases c2 : fd = pipeWrFd s ∨ (fd = p ∧ p ≠ 0)
            · rw [if_pos c2] at hv; exact Option.noConfusion hv
            · rw [if_neg c2] at hv
              left
              exact ⟨fun x => c2 (Or.inr x), hv⟩
          · right; right; left
            rw [hSr] at hv
            refine ⟨by omega, ?_⟩
            rw [hj]
            simpa using hv.symm
          · right; right; left
            refine ⟨by omega, ?_⟩
            rw [hv, hSnp]; congr 1; omega
          · right; right; right
            refine ⟨by simp only [List.length_cons] at hj ⊢; omega, ?_⟩
            rw [hSnp] at hv
            have e1 : s.npipe + 1 + j = s.npipe + (j + 1) := by omega
            rw [e1] at hv
            exact hv
/-- Whatever way `fork_cmd_node` ends, its trace extends that of its stage loop. -/
theorem fork_cmd_node_ext_loop (w : World) (cmd : List cmd_node) (s : Proc) :
    ∃ evs, (fork_cmd_node w cmd s).2.trace =
      (stage_loop w cmd STDIN_FILENO (0, 0) 0 s).2.2.trace ++ evs := by
  cases hl : (stage_loop w cmd STDIN_FILENO (0, 0) 0 s).1 with
  | some o =>
    rw [fork_cmd_node_of_loop_some w cmd s o hl]
    exact ⟨[], by simp⟩
  | none =>
    obtain ⟨_, evs, h, _⟩ := fork_cmd_node_after_loop w cmd s hl
    exact ⟨evs, h⟩

/-- In a pipeline of at least two stages whose first `pipe` call succeeds,
the first call `fork_cmd_node` makes is that `pipe` call, which returns the
two lowest free descriptors. -/
theorem fork_cmd_node_first_pipe (w : World) (cmd : List cmd_node) (s : Proc) (evs : List Event)
    (hN : 2 ≤ cmd.length) (hp : w.pipeOk s.npipe = true)
    (hevs : (fork_cmd_node w cmd s).2.trace = s.trace ++ evs) :
    ∃ rest, evs = .pipe 0 (pipeRdFd s) (pipeWrFd s) :: rest := by
  obtain ⟨e3, h3⟩ := fork_cmd_node_ext_loop w cmd s
  match cmd, hN with
  | node :: n2 :: rest, _ =>
    have hloop : ∃ e2, (stage_loop w (node :: n2 :: rest) STDIN_FILENO (0, 0) 0 s).2.2.trace =
        s.trace ++ (.pipe 0 (pipeRdFd s) (pipeWrFd s) :: e2) := by
      rw [stage_loop_cons]
      have hP : stagePipe w (n2 :: rest) (0, 0) s =
          ((0, (pipeRdFd s : Int), (pipeWrFd s : Int)), afterPipe s) := by
        simp [stagePipe, sys_pipe_ok w s hp]
      rw [hP]
      simp only [List.isEmpty_cons, Bool.not_false, Bool.true_and, Bool.false_eq_true,
        if_true, ne_eq]
      have hno : ¬ ((0 : Int) = -1) := by omega
      simp only [hno, decide_False, Bool.false_eq_true, if_false]
      generalize stageWired node (n2 :: rest) STDIN_FILENO ((pipeRdFd s : Int), (pipeWrFd s : Int))
        = N
      have hF : (sys_fork w N (afterPipe s)).2.trace =
          s.trace ++ [.pipe 0 (pipeRdFd s) (pipeWrFd s),
            .fork (w.forkRet (afterPipe s).nfork) N (afterPipe s).fds] := by
        rw [sys_fork_trace, afterPipe_trace]; simp
      split
      · exact ⟨[.fork (w.forkRet (afterPipe s).nfork) N (afterPipe s).fds, .perror "fork"],
          by simp [perror, Proc.log, hF]⟩
      · split
        · obtain ⟨_, ce, hce, _⟩ := pipeline_child_noFork w N (sys_fork w N (afterPipe s)).2
          exact ⟨.fork (w.forkRet (afterPipe s).nfork) N (afterPipe s).fds :: ce,
            by rw [hce, hF]; simp⟩
        · obtain ⟨_, _, _, qe, hqe, _⟩ :=
            stageParent_quiet N STDIN_FILENO (sys_fork w N (afterPipe s)).2
          obtain ⟨e2, he2⟩ := stage_loop_ext w (n2 :: rest) (pipeRdFd s : Int)
            ((pipeRdFd s : Int), (pipeWrFd s : Int)) (0 + 1)
            (stageParent N STDIN_FILENO (sys_fork w N (afterPipe s)).2)
          exact ⟨.fork (w.forkRet (afterPipe s).nfork) N (afterPipe s).fds :: (qe ++ e2),
            by rw [he2, hqe, hF]; simp⟩
    obtain ⟨e2, h2⟩ := hloop
    refine ⟨e2 ++ e3, ?_⟩
    have h4 : s.trace ++ evs = s.trace ++ (.pipe 0 (pipeRdFd s) (pipeWrFd s) :: (e2 ++ e3)) := by
      rw [← hevs, h3, h2]; simp
    exact List.append_cancel_left h4

/-- The parent's whole run of `fork_cmd_node` in a process whose descriptors
0 and 1 are open, when every `pipe` and `fork` call succeeds. -/
theorem fork_cmd_node_std (w : World) (cmd : List cmd_node) (s : Proc)
    (hne : cmd ≠ []) (hp : ∀ k, w.pipeOk k = true) (hf : ∀ k, 0 < w.forkRet k)
    (h0 : fdget s.fds 0 ≠ none) (h1 : fdget s.fds 1 ≠ none) :
    sameTable (fork_cmd_node w cmd s).2.fds s.fds ∧
    ∃ evs, (fork_cmd_node w cmd s).2.trace = s.trace ++ evs ∧
      (forkEvents evs).length = cmd.length ∧
      (pipeEvents evs).length + 1 = cmd.length ∧
      (∀ e ∈ forkEvents evs, 0 < e.1) ∧
      ((∀ k, (w.waitRet k).1 ≠ -1) → waitCount evs = cmd.length) ∧
      (∀ q ∈ pipeEvents evs, ∃ r wr : Nat, q = (0, (r : Int), (wr : Int)) ∧ 2 ≤ r ∧ 2 ≤ wr ∧
        fdget s.fds r = none ∧ fdget s.fds wr = none) ∧
      (∀ (j : Nat) (e : Int × cmd_node × FdTable), (forkEvents evs)[j]? = some e →
        ∀ fd d, fdget e.2.2 fd = some d →
          fdget s.fds fd = some d ∨ (1 ≤ j ∧ d = .pipeRd (s.npipe + j - 1)) ∨
          (j + 1 < cmd.length ∧ (d = .pipeRd (s.npipe + j) ∨ d = .pipeWr (s.npipe + j)))) := by
  obtain ⟨e1, ht1, ho, hc, hfl, hpl, _⟩ :=
    stage_loop_wiring w hp hf cmd 0 (0, 0) 0 s hne (Or.inl rfl)
  obtain ⟨hfin, _, e2, ht2, hwc, hpos, hpipes, hsnap⟩ :=
    stage_loop_std w hp hf cmd 0 (0, 0) 0 s hne h0 h1 (Or.inl rfl)
  have he : e2 = e1 := by
    have h := ht2.symm.trans ht1
    exact List.append_cancel_left h
  subst he
  have hz : ((0 : Nat) : Int) = STDIN_FILENO := rfl
  rw [hz] at ht1 ho hc hfin
  obtain ⟨hfd, wevs, hwt, hwf, hwp, _, hww⟩ := fork_cmd_node_after_loop w cmd s ho
  refine ⟨?_, e2 ++ wevs, ?_, ?_, ?_, ?_, ?_, ?_, ?_⟩
  · intro fd
    rw [hfd, hfin fd]
    simp
  · rw [hwt, ht1, List.append_assoc]
  · rw [forkEvents_append, hwf, List.append_nil]; exact hfl
  · rw [pipeEvents_append, hwp, List.append_nil]; exact hpl
  · rw [forkEvents_append, hwf, List.append_nil]; exact hpos
  · intro hk
    rw [waitCount_append, hwc, hww hk, hc]; simp
  · rw [pipeEvents_append, hwp, List.append_nil]
    intro q hq
    obtain ⟨r, wr, a, b, c, d, e⟩ := hpipes q hq
    refine ⟨r, wr, a, b, c, ?_, ?_⟩
    · rcases d with ⟨_, d⟩ | d
      · exact absurd rfl d
      · exact d
    · rcases e with ⟨_, e⟩ | e
      · exact absurd rfl e
      · exact e
  · rw [forkEvents_append, hwf, List.append_nil]
    intro j e he fd d hd
    rcases hsnap j e he fd d hd with ⟨_, h⟩ | ⟨_, h, _⟩ | h | h
    · exact Or.inl h
    · exact absurd rfl h
    · exact Or.inr (Or.inl h)
    · exact Or.inr (Or.inr h)

/-- C1: in a pipeline of at least two stages on which every `pipe`, `fork`
and `wait` call succeeds and no `pipe` call returns descriptor 0 or 1,
`fork_cmd_node` makes exactly one `fork` call per stage, each creating a child,
and exactly as many `wait` calls, and when it returns the parent's descriptor
table is the one at entry: every descriptor a `pipe` call returned is closed. -/
theorem pipeline_forks_and_reaps_all (w : World) (cmd : List cmd_node) (s : Proc)
    (evs : List Event) (hN : 2 ≤ cmd.length)
    (hp : ∀ k, w.pipeOk k = true) (hf : ∀ k, 0 < w.forkRet k)
    (hw : ∀ k, (w.waitRet k).1 ≠ -1)
    (hevs : (fork_cmd_node w cmd s).2.trace = s.trace ++ evs)
    (h01 : ∀ q ∈ pipeEvents evs, q.2.1 ≠ 0 ∧ q.2.1 ≠ 1 ∧ q.2.2 ≠ 0 ∧ q.2.2 ≠ 1) :
    (forkEvents evs).length = cmd.length ∧
    (∀ e ∈ forkEvents evs, 0 < e.1) ∧
    waitCount evs = cmd.length ∧
    (pipeEvents evs).length + 1 = cmd.length ∧
    sameTable (fork_cmd_node w cmd s).2.fds s.fds ∧
    (∀ q ∈ pipeEvents evs, 0 ≤ q.2.1 ∧ 0 ≤ q.2.2 ∧
      fdget (fork_cmd_node w cmd s).2.fds q.2.1.toNat = none ∧
      fdget (fork_cmd_node w cmd s).2.fds q.2.2.toNat = none) := by
  have hne : cmd ≠ [] := by
    intro e; rw [e] at hN; simp at hN
  -- the first `pipe` call returned the lowest free descriptor, which is not 0 or 1
  obtain ⟨rest, hfirst⟩ := fork_cmd_node_first_pipe w cmd s evs hN (hp _) hevs
  have hq := h01 (0, (pipeRdFd s : Int), (pipeWrFd s : Int)) (by rw [hfirst]; simp [pipeEvents])
  have hr2 : 2 ≤ lowestFree s.fds := by
    have a := hq.1
    have b := hq.2.1
    simp only [pipeRdFd] at a b
    omega
  have h0 : fdget s.fds 0 ≠ none := fdget_ne_none_of_lt_lowestFree s.fds 0 (by omega)
  have h1 : fdget s.fds 1 ≠ none := fdget_ne_none_of_lt_lowestFree s.fds 1 (by omega)
  obtain ⟨hsame, e2, ht, hfl, hpl, hpos, hwc, hpipes, _⟩ := fork_cmd_node_std w cmd s hne hp hf h0 h1
  have he : e2 = evs := List.append_cancel_left (ht.symm.trans hevs)
  subst he
  refine ⟨hfl, hpos, hwc hw, hpl, hsame, ?_⟩
  intro q hq
  obtain ⟨r, wr, a, _, _, d, e⟩ := hpipes q hq
  subst a
  simp only [Int.toNat_ofNat, Nat.cast_nonneg, true_and]
  rw [hsame r, hsame wr]
  exact ⟨d, e⟩

theorem pipeline_forks_and_reaps_all_witness :
    (forkEvents (fork_cmd_node worldParent cmd3 proc0).2.trace).length = 3 ∧
    waitCount (fork_cmd_node worldParent cmd3 proc0).2.trace = 3 ∧
    sameTable (fork_cmd_node worldParent cmd3 proc0).2.fds proc0.fds :=
  have h := pipeline_forks_and_reaps_all worldParent cmd3 proc0
    (fork_cmd_node worldParent cmd3 proc0).2.trace (by decide) (fun _ => rfl)
    (fun k => by show (0 : Int) < 100 + (k : Int); omega)
    (fun k => by show (100 : Int) + (k : Int) ≠ -1; omega) rfl (by decide)
  ⟨h.1, h.2.2.1, h.2.2.2.2.1⟩

/-- C10, as the code has it: in a pipeline of at least two stages run in a
process whose descriptors 0 and 1 are open (so that no `pipe` call returns 0
or 1) and on which every `pipe` and `fork` call succeeds, the table inherited
by the child of stage `j` holds the read end of the pipe created in pass `i`
exactly when `j = i` or `j = i + 1`, and its write end exactly when `j = i`:
the pipe is open in the parent only at the forks of stages `i` (both ends) and
`i + 1` (read end only), and no other child inherits an end of it. The pipe
of pass `i` is the one numbered `s.npipe + i`; no pipe with a number not yet
given out is in the table at entry. -/
theorem pipe_seen_by_two_children (w : World) (cmd : List cmd_node) (s : Proc)
    (hN : 2 ≤ cmd.length) (hp : ∀ k, w.pipeOk k = true) (hf : ∀ k, 0 < w.forkRet k)
    (h0 : fdget s.fds 0 ≠ none) (h1 : fdget s.fds 1 ≠ none)
    (hfresh : ∀ fd k, s.npipe ≤ k →
      fdget s.fds fd ≠ some (.pipeRd k) ∧ fdget s.fds fd ≠ some (.pipeWr k)) :
    ∃ evs, (fork_cmd_node w cmd s).2.trace = s.trace ++ evs ∧
      (forkEvents evs).length = cmd.length ∧
      ∀ (i j : Nat) (e : Int × cmd_node × FdTable), i + 1 < cmd.length →
        (forkEvents evs)[j]? = some e →
        (holdsRd e.2.2 (s.npipe + i) ↔ (j = i ∨ j = i + 1)) ∧
        (holdsWr e.2.2 (s.npipe + i) ↔ j = i) := by
  have hne : cmd ≠ [] := by
    intro e; rw [e] at hN; simp at hN
  obtain ⟨_, evs, ht, hfl, hpl, _, _, _, hsnap⟩ := fork_cmd_node_std w cmd s hne hp hf h0 h1
  obtain ⟨e2, ht2, _, _, _, _, _, hchain⟩ := fork_cmd_node_wiring w cmd s hN hp hf
  have he : e2 = evs := List.append_cancel_left (ht2.symm.trans ht)
  subst he
  refine ⟨e2, ht, hfl, ?_⟩
  intro i j e hi hj
  have hjlt : j < cmd.length := by
    have := (List.getElem?_eq_some_iff.1 hj).1
    omega
  constructor
  · constructor
    · rintro ⟨fd, hfd⟩
      rcases hsnap j e hj fd _ hfd with h | ⟨hj1, h⟩ | ⟨_, h | h⟩
      · exact absurd h (hfresh fd (s.npipe + i) (by omega)).1
      · have : s.npipe + i = s.npipe + j - 1 := by simpa using h
        right; omega
      · have : s.npipe + i = s.npipe + j := by simpa using h
        left; omega
      · exact OFile.noConfusion h
    · rintro (rfl | rfl)
      · -- the child of stage `i` inherits the read end
        have h1lt : j + 1 < (forkEvents e2).length := by omega
        have h2lt : j < (pipeEvents e2).length := by omega
        obtain ⟨r, wr, _, _, _, _, h5, _⟩ := hchain j e _ _ hj
          (List.getElem?_eq_getElem h1lt) (List.getElem?_eq_getElem h2lt)
        exact ⟨r, h5⟩
      · -- the child of stage `i + 1` inherits the read end
        have h1lt : i < (forkEvents e2).length := by omega
        have h2lt : i < (pipeEvents e2).length := by omega
        obtain ⟨r, wr, _, _, _, _, _, h6⟩ := hchain i _ e _
          (List.getElem?_eq_getElem h1lt) hj (List.getElem?_eq_getElem h2lt)
        exact ⟨r, h6⟩
  · constructor
    · rintro ⟨fd, hfd⟩
      rcases hsnap j e hj fd _ hfd with h | ⟨hj1, h⟩ | ⟨_, h | h⟩
      · exact absurd h (hfresh fd (s.npipe + i) (by omega)).2
      · exact OFile.noConfusion h
      · exact OFile.noConfusion h
      · have : s.npipe + i = s.npipe + j := by simpa using h
        omega
    · rintro rfl
      have h1lt : j + 1 < (forkEvents e2).length := by omega
      have h2lt : j < (pipeEvents e2).length := by omega
      obtain ⟨r, wr, _, _, _, h4, _, _⟩ := hchain j e _ _ hj
        (List.getElem?_eq_getElem h1lt) (List.getElem?_eq_getElem h2lt)
      exact ⟨wr, h4⟩

theorem pipe_seen_by_two_children_witness :
    ∃ evs, (fork_cmd_node worldParent cmd3 proc0).2.trace = proc0.trace ++ evs ∧
      (forkEvents evs).length = 3 :=
  (pipe_seen_by_two_children worldParent cmd3 proc0 (by decide) (fun _ => rfl)
    (fun k => by show (0 : Int) < 100 + (k : Int); omega) (by decide) (by decide)
    (fun fd k _ => by
      have h : ∀ n : Nat, fdget proc0.fds n = tty ∨ fdget proc0.fds n = none := by
        intro n
        match n with
        | 0 => exact Or.inl rfl
        | 1 => exact Or.inl rfl
        | 2 => exact Or.inl rfl
        | n + 3 => exact Or.inr (by simp [proc0, fdget])
      rcases h fd with h | h <;> rw [h] <;> simp [tty])).imp
    (fun _ h => ⟨h.1, h.2.1⟩)

/-- C10 as stated fails: started with descriptors 0 and 1 closed, the first
`pipe` call returns 0 and 1, which the parent never closes; in `ls | sort | wc`
the child of the third stage then inherits both ends of the first pipe. -/
theorem pipe_seen_by_third_child_counterexample :
    pipeEvents (fork_cmd_node worldParent cmd3 procNoStd).2.trace = [(0, 0, 1), (0, 3, 4)] ∧
    (forkEvents (fork_cmd_node worldParent cmd3 procNoStd).2.trace)[2]? =
      some (102, { stageOf ["wc"] with in_ := 3, out := 1 },
        [some (.pipeRd 0), some (.pipeWr 0), tty, some (.pipeRd 1), none]) ∧
    fdget [some (.pipeRd 0), some (.pipeWr 0), tty, some (.pipeRd 1), none] 0
      = some (.pipeRd 0) ∧
    fdget [some (.pipeRd 0), some (.pipeWr 0), tty, some (.pipeRd 1), none] 1
      = some (.pipeWr 0) := by
  decide

end Shell
